import Mathlib

/-!
Verification of the mapping/constraint synchronization core of the
`blender_BoneAnimCopy` add-on (`src/__init__.py`, the current iteration;
the add-on's classes `BAC_BoneMapping`, `BAC_State` and the operators
`BAC_OT_SelectAction`, `BAC_OT_ListAction`, `BAC_OT_ChildMapping`,
`BAC_OT_Bake`).

The embedding is a shallow one.  Host (Blender) data that the add-on only
reads is collected in an environment `Env`: the bone lists of the two
armatures, the bone hierarchy, the name mirroring utility, the result of
the world-matrix Euler computation of `_on_target`, and whether the target
armature carries an action.  Everything the add-on mutates lives in the
state `BState`: the mapping collection with its aggregate fields and, for
every owner pose bone, its constraint stack.  Python floats are modelled
as rationals; constraint stacks are association lists keyed by bone name.
Blender keeps constraint names unique within one stack, so lookups by name
(`constraints.get(name)`) are modelled as first-match lookups.
-/

/-! ### List helpers

`modifyIdx`, `insertAt`, `eraseAt` and `listMove` model in-place updates of
Blender `CollectionProperty` lists; `collection.move(src, dst)` removes the
element at `src` and reinserts it at `dst`. -/

def modifyIdx (f : α → α) : ℕ → List α → List α
  | _, [] => []
  | 0, a :: as => f a :: as
  | n + 1, a :: as => a :: modifyIdx f n as

def insertAt : ℕ → α → List α → List α
  | 0, a, l => a :: l
  | _ + 1, a, [] => [a]
  | n + 1, a, x :: l => x :: insertAt n a l

def eraseAt : ℕ → List α → List α
  | _, [] => []
  | 0, _ :: l => l
  | n + 1, x :: l => x :: eraseAt n l

def listMove (l : List α) (src dst : ℕ) : List α :=
  match l.get? src with
  | none => l
  | some a => insertAt dst a (eraseAt src l)

structure Constraint where
  name : String
  ctype : String
  tag : Bool
  enabled : Bool
  show_expanded : Bool
  targetObj : Option String
  subtarget : String
  to_min_rot : ℚ × ℚ × ℚ
  space_object : Option String
  space_subtarget : String
  use_axis : Bool × Bool × Bool
  influence : ℚ
  chain_count : ℕ
  use_tail : Bool
  map_to : String
  owner_space : String
  deriving Repr, DecidableEq

/-- Blender's `constraints.new(ctype)` followed by the assignments of
`BAC_BoneMapping._new_constraint`: the name is set, the addon tag custom
property is written, and `show_expanded` is cleared.  The remaining fields
carry the host's defaults for a fresh constraint. -/
def mkCon (ctype nm : String) : Constraint where
  name := nm
  ctype := ctype
  tag := true
  enabled := true
  show_expanded := false
  targetObj := none
  subtarget := ""
  to_min_rot := (0, 0, 0)
  space_object := none
  space_subtarget := ""
  use_axis := (true, true, true)
  influence := 1
  chain_count := 0
  use_tail := true
  map_to := "LOCATION"
  owner_space := "WORLD"

/-- One `BAC_BoneMapping` property group.  `offset` (a Blender float vector)
is modelled with rationals. -/
structure Mapping where
  selected_owner : String := ""
  owner : String := ""
  target : String := ""
  has_rotoffs : Bool := false
  has_loccopy : Bool := false
  has_ik : Bool := false
  offset : ℚ × ℚ × ℚ := (0, 0, 0)
  loc_axis : Bool × Bool × Bool := (true, true, true)
  ik_influence : ℚ := 1
  selected : Bool := false
  deriving Repr, DecidableEq, Inhabited

/-- The `BAC_State` property group together with the host state the add-on
mutates.  `ownerObj` stands both for `scene.kumopult_bac_owner` and for
`state.owner` (the add-on keeps the two synchronized in `update_target`);
`conStacks` is the per-pose-bone constraint stack of the owner armature,
keyed by bone name; `ownerSelBones` / `targetSelBones` are the sets of
data bones with `select = True`, and `ownerActiveBone` / `targetActiveBone`
the armatures' active bones, written by `update_select` / `update_active`. -/
structure BState where
  ownerObj : Option String := none
  targetObj : Option String := none
  mappings : List Mapping := []
  active_mapping : ℤ := -1
  selected_count : ℤ := 0
  editing_type : ℤ := 0
  preview : Bool := true
  sync_select : Bool := false
  calc_offset : Bool := true
  ortho_offset : Bool := true
  conStacks : List (String × List Constraint) := []
  ownerSelBones : List String := []
  targetSelBones : List String := []
  ownerActiveBone : Option String := none
  targetActiveBone : Option String := none
  deriving Repr, DecidableEq, Inhabited

/-- Host data the add-on only reads: `bones o` is the list of bone names of
armature object `o` (`data.bones` and `pose.bones` agree on names),
`children o b` the direct children of bone `b` in armature `o`,
`flipName` Blender's left/right name-mirroring utility,
`eulerOf ortho ob tb` the Euler angle computed by `_on_target` from the two
world-space pose matrices (with the orthogonal π/2 snap of lines 122–126
already applied when `ortho` is true — the snap itself is real-number
arithmetic and is verified separately below, see `snapMultiple`), and
`hasAction t` whether armature `t` has animation data with an action. -/
structure Env where
  bones : String → List String
  children : String → String → List String
  flipName : String → String
  eulerOf : Bool → String → String → ℚ × ℚ × ℚ
  hasAction : String → Bool

/-! ### Constraint stack primitives -/

def stackOf (s : BState) (b : String) : List Constraint :=
  match s.conStacks.find? (fun p => p.1 = b) with
  | some p => p.2
  | none => []

def upsertStack : List (String × List Constraint) → String → List Constraint →
    List (String × List Constraint)
  | [], b, st => [(b, st)]
  | p :: ps, b, st => if p.1 = b then (b, st) :: ps else p :: upsertStack ps b st

def setStack (s : BState) (b : String) (st : List Constraint) : BState :=
  { s with conStacks := upsertStack s.conStacks b st }

/-- First constraint with the given name (`constraints.get(name)`).
Blender keeps names unique within one stack, so this is the lookup the
code performs. -/
def findNamed (st : List Constraint) (nm : String) : Option Constraint :=
  st.find? (fun c => c.name = nm)

/-- The `_new_constraint` body on one stack: reuse the constraint found by
name, otherwise append a freshly created, tagged one. -/
def newCon (st : List Constraint) (ctype nm : String) : List Constraint :=
  if (findNamed st nm).isSome then st else st ++ [mkCon ctype nm]

/-- Mutation of the constraint object returned by `constraints.get(name)`:
update the first constraint carrying the name. -/
def updNamed : List Constraint → String → (Constraint → Constraint) → List Constraint
  | [], _, _ => []
  | c :: cs, nm, f => if c.name = nm then f c :: cs else c :: updNamed cs nm f

/-- The `_remove_constraint` body applied to the constraint found by name:
remove it only when it carries the addon tag. -/
def rmNamedTagged : List Constraint → String → List Constraint
  | [], _ => []
  | c :: cs, nm => if c.name = nm then (if c.tag then cs else c :: cs) else c :: rmNamedTagged cs nm

/-! ### Bone resolution and `_apply` (constraint synchronization) -/

/-- The four reserved constraint names owned by the add-on. -/
def RESERVED : List String := ["BAC_ROT_COPY", "BAC_ROT_ROLL", "BAC_LOC_COPY", "BAC_IK"]

/-- The `get_owner_pose_bone` method: `state.owner.pose.bones.get(self.owner)`. -/
def getOwnerPB (env : Env) (s : BState) (m : Mapping) : Option String :=
  match s.ownerObj with
  | none => none
  | some o => if m.owner ∈ env.bones o then some m.owner else none

/-- The `get_target_pose_bone` method: `state.target.pose.bones.get(self.target)`. -/
def getTargetPB (env : Env) (s : BState) (m : Mapping) : Option String :=
  match s.targetObj with
  | none => none
  | some t => if m.target ∈ env.bones t then some m.target else none

/-- The `is_valid` method of `BAC_BoneMapping`. -/
def is_valid (env : Env) (s : BState) (m : Mapping) : Bool :=
  (getOwnerPB env s m).isSome && (getTargetPB env s m).isSome

/-- The `_apply` method of `BAC_BoneMapping` for the mapping at index `i`,
following the source line by line: early return when state, owner pose bone
or target pose bone is missing; then the `constraints` dict is built by the
four `get_constraint` calls (each a `_new_constraint`, with the `roll` and
`ik` kinds configuring `map_to`/`owner_space` resp. `chain_count`/`use_tail`
on every call); then the four per-kind blocks update parameters and the
enabled flag, or `_remove_constraint` the tagged constraint when the kind's
toggle is off.  The `self.is_valid()` conjunct of the rotation-copy block
(line 220) is kept verbatim even though the early return makes it `true`
at that point. -/
def applyMapping (env : Env) (s : BState) (i : ℕ) : BState :=
  match s.mappings.get? i with
  | none => s
  | some m =>
    match getOwnerPB env s m, getTargetPB env s m with
    | some ob, some _ =>
      let valid := is_valid env s m
      let st0 := stackOf s ob
      let st1 := newCon st0 "COPY_ROTATION" "BAC_ROT_COPY"
      let st2 := updNamed (newCon st1 "TRANSFORM" "BAC_ROT_ROLL") "BAC_ROT_ROLL"
                  (fun c => { c with map_to := "ROTATION", owner_space := "CUSTOM" })
      let st3 := newCon st2 "COPY_LOCATION" "BAC_LOC_COPY"
      let st4 := updNamed (newCon st3 "IK" "BAC_IK") "BAC_IK"
                  (fun c => { c with chain_count := 2, use_tail := false })
      let st5 := updNamed st4 "BAC_ROT_COPY"
                  (fun c => { c with targetObj := s.targetObj, subtarget := m.target,
                                     enabled := valid && s.preview })
      let st6 := if m.has_rotoffs && valid then
                   updNamed st5 "BAC_ROT_ROLL"
                     (fun c => { c with to_min_rot := m.offset,
                                        targetObj := s.targetObj, space_object := s.targetObj,
                                        subtarget := m.target, space_subtarget := m.target,
                                        enabled := s.preview })
                 else rmNamedTagged st5 "BAC_ROT_ROLL"
      let st7 := if m.has_loccopy && valid then
                   updNamed st6 "BAC_LOC_COPY"
                     (fun c => { c with use_axis := m.loc_axis,
                                        targetObj := s.targetObj, subtarget := m.target,
                                        enabled := s.preview })
                 else rmNamedTagged st6 "BAC_LOC_COPY"
      let st8 := if m.has_ik && valid then
                   updNamed st7 "BAC_IK"
                     (fun c => { c with influence := m.ik_influence,
                                        targetObj := s.targetObj, subtarget := m.target,
                                        enabled := s.preview })
                 else rmNamedTagged st7 "BAC_IK"
      setStack s ob st8
    | _, _ => s

/-- The `clear_constraints` method: remove every tagged constraint from the
owner pose bone's stack (no-op when the owner bone does not resolve). -/
def clearConstraints (env : Env) (s : BState) (m : Mapping) : BState :=
  match getOwnerPB env s m with
  | none => s
  | some ob => setStack s ob ((stackOf s ob).filter (fun c => !c.tag))

/-! ### Selection bookkeeping and property-update callbacks -/

def countSelected (l : List Mapping) : ℤ :=
  ((l.filter (fun m => m.selected)).length : ℤ)

/-- The `update_select` callback of `BAC_State` (fired when
`selected_count` is assigned): when `sync_select` is on and both armatures
are set, replace the data-bone selection of both armatures by the owner
resp. target bones of the selected mappings. -/
def update_select (env : Env) (s : BState) : BState :=
  if s.sync_select then
    match s.ownerObj, s.targetObj with
    | some o, some t =>
      { s with
        ownerSelBones := (env.bones o).filter
          (fun b => s.mappings.any (fun m => m.selected && decide (m.owner = b))),
        targetSelBones := (env.bones t).filter
          (fun b => s.mappings.any (fun m => m.selected && decide (m.target = b))) }
    | _, _ => s
  else s

/-- The `update_active` callback of `BAC_State` (fired when
`active_mapping` is assigned).  Its nested `update_select` call is blocked
by the shared `is_updating` guard (both methods are decorated with
`guard("is_updating")` on the same instance), so only the active-bone
mirroring remains. -/
def update_active (env : Env) (s : BState) : BState :=
  if s.sync_select then
    if 0 ≤ s.active_mapping ∧ s.active_mapping < (s.mappings.length : ℤ) then
      match s.ownerObj with
      | none => s
      | some o =>
        let m := s.mappings.getD s.active_mapping.toNat default
        let s1 := if m.owner ∈ env.bones o then { s with ownerActiveBone := some m.owner } else s
        match s1.targetObj with
        | some t =>
          if m.target ∈ env.bones t then { s1 with targetActiveBone := some m.target } else s1
        | none => s1
    else s
  else s

/-- Assignment `state.active_mapping = v` together with its update callback. -/
def setActive (env : Env) (s : BState) (v : ℤ) : BState :=
  update_active env { s with active_mapping := v }

/-- Assignment `state.selected_count = v` together with its update callback. -/
def setSelectedCount (env : Env) (s : BState) (v : ℤ) : BState :=
  update_select env { s with selected_count := v }

/-- Assignment `mapping.selected = b` together with its `_on_selected`
callback, which recomputes the cached `selected_count` (that assignment in
turn fires `update_select`). -/
def setSelected (env : Env) (s : BState) (i : ℕ) (b : Bool) : BState :=
  let s1 := { s with mappings := modifyIdx (fun m => { m with selected := b }) i s.mappings }
  setSelectedCount env s1 (countSelected s1.mappings)

/-- The `_on_target` callback body for the mapping at index `i`: when the
mapping is valid, `calc_offset` is on and both armatures are set, the Euler
offset of the two world-space pose matrices is computed (`env.eulerOf`,
with the orthogonal snap already applied when `ortho_offset` is set); a
non-zero result is stored into `offset` and `has_rotoffs` is switched on —
each of those two assignments fires its own `_apply` update callback.  In
every case a final `_apply` runs. -/
def on_target (env : Env) (s : BState) (i : ℕ) : BState :=
  match s.mappings.get? i with
  | none => s
  | some m =>
    if is_valid env s m && s.calc_offset && s.targetObj.isSome && s.ownerObj.isSome then
      let e := env.eulerOf s.ortho_offset m.owner m.target
      if e ≠ (0, 0, 0) then
        let s1 := { s with mappings := modifyIdx (fun m' => { m' with offset := e }) i s.mappings }
        let s2 := applyMapping env s1 i
        let s3 := { s2 with
          mappings := modifyIdx (fun m' => { m' with has_rotoffs := true }) i s2.mappings }
        let s4 := applyMapping env s3 i
        applyMapping env s4 i
      else applyMapping env s i
    else applyMapping env s i

/-- Assignment `mapping.target = t` together with its `_on_target` callback. -/
def setMappingTarget (env : Env) (s : BState) (i : ℕ) (t : String) : BState :=
  on_target env { s with mappings := modifyIdx (fun m => { m with target := t }) i s.mappings } i

/-- Assignment `mapping.selected_owner = nm` together with its `_on_owner`
callback: clear the constraints of the previous owner bone, copy
`selected_owner` into `owner` (the constraint-conflict alert has no state
effect), then `_apply`. -/
def setMappingSelectedOwner (env : Env) (s : BState) (i : ℕ) (nm : String) : BState :=
  let s1 := { s with mappings := modifyIdx (fun m => { m with selected_owner := nm }) i s.mappings }
  match s1.mappings.get? i with
  | none => s1
  | some m =>
    let s2 := clearConstraints env s1 m
    let s3 := { s2 with
      mappings := modifyIdx (fun m' => { m' with owner := m'.selected_owner }) i s2.mappings }
    applyMapping env s3 i

/-! ### `BAC_State` collection operations -/

/-- The `get_selection` method: the single in-bounds active index when no
mapping is selected, otherwise the selected indices from highest to
lowest. -/
def get_selection (s : BState) : List ℕ :=
  if s.selected_count = 0 ∧ 0 ≤ s.active_mapping ∧ s.active_mapping < (s.mappings.length : ℤ) then
    [s.active_mapping.toNat]
  else
    (List.range s.mappings.length).reverse.filter
      (fun i => (s.mappings.getD i default).selected)

/-- The `for i, mapping in enumerate(self.mappings)` search loop of
`get_mapping_by_owner`, carrying the running index. -/
def findOwnerIdx (nm : String) : List Mapping → ℕ → Option ℕ
  | [], _ => none
  | m :: ms, i => if m.owner = nm then some i else findOwnerIdx nm ms (i + 1)

/-- The `get_mapping_by_owner` method, returning the index of the first
mapping whose `owner` equals `nm`; an empty query name never matches
(`if name:`). -/
def get_mapping_by_owner (s : BState) (nm : String) : Option ℕ :=
  if nm ≠ "" then findOwnerIdx nm s.mappings 0 else none

/-- The `add_mapping` method.  Returns the final state together with the
returned `(mapping, index)` pair. -/
def add_mapping (env : Env) (s : BState) (ow tg : String) (index : ℤ) : BState × Mapping × ℕ :=
  let index := if index = -1 then s.active_mapping + 1 else index
  match get_mapping_by_owner s ow with
  | some ei =>
    let s1 := setMappingTarget env s ei tg
    let s2 := setActive env s1 ei
    (s2, s2.mappings.getD ei default, ei)
  | none =>
    let s1 := { s with mappings := s.mappings ++ [{}] }
    let s2 := setMappingSelectedOwner env s1 (s1.mappings.length - 1) ow
    let s3 := setMappingTarget env s2 (s1.mappings.length - 1) tg
    let final := (max 0 (min index ((s3.mappings.length : ℤ) - 1))).toNat
    let s4 := { s3 with mappings := listMove s3.mappings (s3.mappings.length - 1) final }
    let s5 := setActive env s4 final
    (s5, s5.mappings.getD final default, final)

/-- One iteration of the `remove_mapping` loop: clear the mapping's
constraints, then remove it from the collection. -/
def removeStep (env : Env) (t : BState) (i : ℕ) : BState :=
  match t.mappings.get? i with
  | none => t
  | some m =>
    let t1 := clearConstraints env t m
    { t1 with mappings := eraseAt i t1.mappings }

/-- The `remove_mapping` method: remove every mapping of the working
selection (highest index first), then reassign `active_mapping` to
`min(active, max(0, len-1))` and reset `selected_count` to `0` (both
assignments firing their update callbacks). -/
def remove_mapping (env : Env) (s : BState) : BState :=
  let s1 := (get_selection s).foldl (removeStep env) s
  let s2 := setActive env s1 (min s1.active_mapping (max 0 ((s1.mappings.length : ℤ) - 1)))
  setSelectedCount env s2 0

/-! ### `BAC_OT_SelectAction` -/

/-- The `'ALL'` branch: set every mapping's `selected` (each assignment
firing `_on_selected`), then assign `selected_count = len(mappings)`. -/
def selectActionAll (env : Env) (s : BState) : BState :=
  let s1 := (List.range s.mappings.length).foldl (fun t i => setSelected env t i true) s
  setSelectedCount env s1 (s1.mappings.length : ℤ)

/-- The `'INVERSE'` branch: flip every mapping's `selected`, then assign
the recomputed count. -/
def selectActionInverse (env : Env) (s : BState) : BState :=
  let s1 := (List.range s.mappings.length).foldl
    (fun t i => setSelected env t i (!(t.mappings.getD i default).selected)) s
  setSelectedCount env s1 (countSelected s1.mappings)

/-- The default branch (clear): deselect every mapping, then assign `0`. -/
def selectActionNone (env : Env) (s : BState) : BState :=
  let s1 := (List.range s.mappings.length).foldl (fun t i => setSelected env t i false) s
  setSelectedCount env s1 0

/-- The `BAC_OT_SelectAction.execute` dispatch. -/
def selectAction (env : Env) (s : BState) (action : String) : BState :=
  if action = "ALL" then selectActionAll env s
  else if action = "INVERSE" then selectActionInverse env s
  else selectActionNone env s

/-! ### `BAC_OT_ListAction` reorder and add branches -/

/-- The `'UP'` branch of `BAC_OT_ListAction.execute`: with no selection,
swap the active row with the one above and move the active index; with a
selection, walk the selected indices of `range(1, len)` in ascending order
and swap each with its upper neighbour unless that neighbour is itself
selected. -/
def listActionUp (env : Env) (s : BState) : BState :=
  if s.selected_count = 0 then
    if s.active_mapping < (s.mappings.length : ℤ) ∧ 0 < s.active_mapping then
      let s1 := { s with
        mappings := listMove s.mappings s.active_mapping.toNat (s.active_mapping.toNat - 1) }
      setActive env s1 (s.active_mapping - 1)
    else s
  else
    let idxs := (List.range' 1 (s.mappings.length - 1)).filter
      (fun i => (s.mappings.getD i default).selected)
    idxs.foldl
      (fun t i =>
        if !(t.mappings.getD (i - 1) default).selected then
          { t with mappings := listMove t.mappings i (i - 1) }
        else t)
      s

/-- The `'DOWN'` branch of `BAC_OT_ListAction.execute`: symmetric to
`'UP'`, walking `range(len-2, -1, -1)` (descending) and swapping with the
lower neighbour unless it is selected. -/
def listActionDown (env : Env) (s : BState) : BState :=
  if s.selected_count = 0 then
    if s.active_mapping + 1 < (s.mappings.length : ℤ) ∧ 0 < s.active_mapping + 1 then
      let s1 := { s with
        mappings := listMove s.mappings s.active_mapping.toNat (s.active_mapping.toNat + 1) }
      setActive env s1 (s.active_mapping + 1)
    else s
  else
    let idxs := (List.range (s.mappings.length - 1)).reverse.filter
      (fun i => (s.mappings.getD i default).selected)
    idxs.foldl
      (fun t i =>
        if !(t.mappings.getD (i + 1) default).selected then
          { t with mappings := listMove t.mappings i (i + 1) }
        else t)
      s

/-- The `'ADD'` branch of `BAC_OT_ListAction.execute`:
`state.add_mapping('', '')`. -/
def listActionAdd (env : Env) (s : BState) : BState :=
  (add_mapping env s "" "" (-1)).1

/-! ### `BAC_OT_ChildMapping` -/

/-- One iteration of the `BAC_OT_ChildMapping.execute` loop over the
working selection.  Returns the state after the iteration and `false` when
the iteration raises (an `AttributeError` when an armature is unset or a
`KeyError` from `bones[...]` when a mapped bone no longer exists — both
uncaught, aborting the operator with all previous mutations kept). -/
def childStep (env : Env) (t : BState) (i : ℕ) : BState × Bool :=
  match t.mappings.get? i with
  | none => (t, false)
  | some m =>
    let t1 := if m.selected then setSelected env t i false else t
    match t1.ownerObj, t1.targetObj with
    | some o, some tg =>
      if m.target ∈ env.bones tg ∧ m.owner ∈ env.bones o then
        if (env.children tg m.target).length = 1 ∧ (env.children o m.owner).length = 1 then
          let a := add_mapping env t1 ((env.children o m.owner).getD 0 "")
                     ((env.children tg m.target).getD 0 "") ((i : ℤ) + 1)
          (setSelected env a.1 a.2.2 true, true)
        else (t1, true)
      else (t1, false)
    | _, _ => (t1, false)

def childLoop (env : Env) : List ℕ → BState → BState
  | [], t => t
  | i :: rest, t =>
    let r := childStep env t i
    if r.2 then childLoop env rest r.1 else r.1

/-- The `BAC_OT_ChildMapping.execute` body (the `flag`-based report has no
state effect). -/
def childMappingExec (env : Env) (s : BState) : BState :=
  childLoop env (get_selection s) s

/-! ### `BAC_OT_Bake` -/

/-- Snapshot of the non-tagged ("foreign") constraints on every owner pose
bone: `(bone, constraint name, prior enabled flag)` triples in stack
order. -/
def bakeSnapshot (env : Env) (s : BState) (o : String) : List (String × String × Bool) :=
  (env.bones o).flatMap (fun b =>
    (stackOf s b).filterMap (fun c => if c.tag then none else some (b, c.name, c.enabled)))

/-- The snapshot loop's side effect: every non-tagged constraint on every
owner pose bone is disabled. -/
def bakeDisable (env : Env) (s : BState) (o : String) : BState :=
  (env.bones o).foldl
    (fun t b =>
      setStack t b ((stackOf t b).map (fun c => if c.tag then c else { c with enabled := false })))
    s

/-- The `update_preview` callback of `BAC_State`: re-`_apply` every
mapping. -/
def update_preview (env : Env) (s : BState) : BState :=
  (List.range s.mappings.length).foldl (fun t i => applyMapping env t i) s

/-- Assignment `state.preview = v` together with its update callback. -/
def setPreview (env : Env) (s : BState) (v : Bool) : BState :=
  update_preview env { s with preview := v }

/-- The restore loop after the bake: each snapshotted constraint gets its
recorded enabled flag back. -/
def bakeRestore (s : BState) (snap : List (String × String × Bool)) : BState :=
  snap.foldl
    (fun t e =>
      setStack t e.1 (updNamed (stackOf t e.1) e.2.1 (fun c => { c with enabled := e.2.2 })))
    s

/-- The `BAC_OT_Bake.execute` body.  `none` models `{'CANCELLED'}` (a
precondition failed).  `bakeRaises` states whether `bpy.ops.nla.bake`
raises a `RuntimeError`; the call only writes keyframe data, which is
outside the model, and its error is caught and alerted, so the modelled
state evolves identically on both paths — the `finally` block and the
restore loop run in either case.  Mode switching, object selection and the
renaming of the baked action are host-only effects. -/
def bakeExec (env : Env) (s : BState) (_bakeRaises : Bool) : Option BState :=
  match s.ownerObj, s.targetObj with
  | some o, some tg =>
    if env.hasAction tg then
      let snap := bakeSnapshot env s o
      let s1 := bakeDisable env s o
      let s2 := setPreview env s1 true
      let s3 := setPreview env s2 false
      let s4 := bakeRestore s3 snap
      some s4
    else none
  | _, _ => none

/-! ### Orthogonal snap of `_on_target` (lines 122–126)

The source computes `step = pi * 0.5` and replaces every Euler component
`e` by `round(e/step) * step`.  Over the reals this is rounding to the
nearest integer multiple of π/2.  To keep the embedding computable the
integer `round(e/(π/2))` is evaluated through a pair of rational bounds on
π: when the round is the same under both bounds it equals the real round
(`snapMultiple_round`). -/

def PI_LO : ℚ := 3.141592

def PI_HI : ℚ := 3.141593

/-- Computable evaluation of `round(q / (pi/2))` for rational `q`:
`some k` when the rational π bounds pin the value down. -/
def snapMultiple (q : ℚ) : Option ℤ :=
  if round (2 * q / PI_HI) = round (2 * q / PI_LO) then some (round (2 * q / PI_HI)) else none

/-- Component-wise orthogonal snap of a raw Euler triple, returning the
three multiples of π/2 that the source stores (`round(euler[i]/step)`,
with the stored value being that multiple times `step`). -/
def orthoSnapEuler (e : ℚ × ℚ × ℚ) : Option (ℤ × ℤ × ℤ) :=
  match snapMultiple e.1, snapMultiple e.2.1, snapMultiple e.2.2 with
  | some a, some b, some c => some (a, b, c)
  | _, _, _ => none

/-! ### Concrete example data used by witnesses and counterexamples -/

/-- A small host world: owner armature "O" with bones A, A2; target
armature "T" with bones B, B2; no hierarchy; every armature has an
action. -/
def env0 : Env where
  bones := fun o => if o = "O" then ["A", "A2"] else if o = "T" then ["B", "B2"] else []
  children := fun _ _ => []
  flipName := fun n => n
  eulerOf := fun _ _ _ => (0, 0, 0)
  hasAction := fun _ => true

/-- A tagged rotation-copy constraint as `_new_constraint` creates it. -/
def conRot : Constraint := mkCon "COPY_ROTATION" "BAC_ROT_COPY"

/-- State with one valid mapping A→B and the active index on it. -/
def s1ex : BState :=
  { ownerObj := some "O", targetObj := some "T",
    mappings := [{ selected_owner := "A", owner := "A", target := "B" }],
    active_mapping := 0 }

/-- State with preview on and nothing else: bake preconditions hold. -/
def s2ex : BState :=
  { ownerObj := some "O", targetObj := some "T", preview := true }

/-- State whose single mapping is invalid (target bone "C" does not exist
in armature "T") while an enabled tagged rotation-copy constraint is still
sitting on owner bone "A" (left over from when the mapping was valid). -/
def s3ex : BState :=
  { ownerObj := some "O", targetObj := some "T",
    mappings := [{ selected_owner := "A", owner := "A", target := "C" }],
    conStacks := [("A", [conRot])] }

/-- State with a valid mapping whose owner bone carries a user-authored
(non-tagged) constraint that happens to be named "BAC_ROT_COPY". -/
def s4ex : BState :=
  { ownerObj := some "O", targetObj := some "T",
    mappings := [{ selected_owner := "A", owner := "A", target := "B" }],
    conStacks := [("A", [{ conRot with tag := false, enabled := false }])] }

/-- State with one unselected mapping and the default active index −1. -/
def s7ex : BState :=
  { ownerObj := some "O", targetObj := some "T",
    mappings := [{ selected_owner := "A", owner := "A", target := "B" }],
    active_mapping := -1 }

/-- Mapping with the given owner name and selection flag. -/
def mSel (nm : String) (sel : Bool) : Mapping :=
  { selected_owner := nm, owner := nm, selected := sel }

/-- Three mappings, indices 1 and 2 selected, index 0 not. -/
def s8ex : BState :=
  { ownerObj := some "O", targetObj := some "T",
    mappings := [mSel "x" false, mSel "y" true, mSel "z" true], selected_count := 2 }

/-- Projection of a mapping onto every field except `offset` and
`has_rotoffs` (the two fields the `_on_target` callback may rewrite). -/
def projNoOffset (m : Mapping) :
    String × String × String × Bool × Bool × (Bool × Bool × Bool) × ℚ × Bool :=
  (m.selected_owner, m.owner, m.target, m.has_loccopy, m.has_ik, m.loc_axis,
    m.ik_influence, m.selected)

/-- A user-authored (non-tagged) constraint that is enabled before a bake. -/
def conUser : Constraint :=
  { mkCon "LIMIT_ROTATION" "usercon" with tag := false, enabled := true }

/-- Bake-witness state: preview on, no mappings, one enabled user-authored
constraint on owner pose bone "A". -/
def sC2 : BState :=
  { ownerObj := some "O", targetObj := some "T", preview := true,
    conStacks := [("A", [conUser])] }

/-- Helper for reasoning about the restore loop of the bake operator: apply
to a constraint the enabled flag recorded for its name in an association
list of snapshot entries (identity when the name was not snapshotted). -/
def enabFun (entries : List (String × Bool)) (c : Constraint) : Constraint :=
  match List.lookup c.name entries with
  | some v => { c with enabled := v }
  | none => c

/-! ### Lemma library -/

theorem modifyIdx_length (f : α → α) (n : ℕ) (l : List α) :
    (modifyIdx f n l).length = l.length := by
  induction l generalizing n with
  | nil => cases n <;> rfl
  | cons a as ih => cases n with
    | zero => rfl
    | succ m => simpa [modifyIdx] using ih m

theorem insertAt_length (n : ℕ) (a : α) (l : List α) :
    (insertAt n a l).length = l.length + 1 := by
  induction l generalizing n with
  | nil => cases n <;> rfl
  | cons x xs ih => cases n with
    | zero => rfl
    | succ m => simpa [insertAt] using ih m

theorem eraseAt_length (n : ℕ) (l : List α) (h : n < l.length) :
    (eraseAt n l).length = l.length - 1 := by
  induction l generalizing n with
  | nil => simp at h
  | cons x xs ih => cases n with
    | zero => rfl
    | succ m =>
      have hm : m < xs.length := by simpa using h
      have hx : 1 ≤ xs.length := Nat.one_le_of_lt (Nat.lt_of_le_of_lt (Nat.zero_le m) hm)
      simp [eraseAt, ih m hm, Nat.succ_sub_one]
      omega

theorem listMove_length (l : List α) (src dst : ℕ) :
    (listMove l src dst).length = l.length := by
  unfold listMove
  cases hg : l.get? src with
  | none => rfl
  | some a =>
    have hs : src < l.length := List.get?_eq_some.mp hg |>.choose
    rw [insertAt_length, eraseAt_length _ _ hs]
    omega

theorem length_filter_cons (p : α → Bool) (a : α) (l : List α) :
    ((a :: l).filter p).length = (l.filter p).length + (if p a then 1 else 0) := by
  by_cases h : p a <;> simp [List.filter_cons, h]

theorem filter_insertAt (p : α → Bool) (n : ℕ) (a : α) (l : List α) :
    ((insertAt n a l).filter p).length
      = (l.filter p).length + (if p a then 1 else 0) := by
  induction l generalizing n with
  | nil => cases n <;> simp [insertAt, length_filter_cons]
  | cons x xs ih => cases n with
    | zero => simp [insertAt, length_filter_cons]
    | succ m =>
      simp only [insertAt, length_filter_cons, ih m]
      omega

theorem filter_eraseAt (p : α → Bool) (n : ℕ) (l : List α) (a : α)
    (h : l.get? n = some a) :
    ((eraseAt n l).filter p).length
      = (l.filter p).length - (if p a then 1 else 0) := by
  induction l generalizing n with
  | nil => simp at h
  | cons x xs ih => cases n with
    | zero =>
      simp only [List.get?] at h
      cases h
      simp [eraseAt, length_filter_cons]
    | succ m =>
      simp only [List.get?] at h
      simp only [eraseAt, length_filter_cons, ih m h]
      have hle : (if p a then 1 else 0) ≤ (xs.filter p).length := by
        by_cases hpa : p a
        · have hmem : a ∈ xs.filter p := List.mem_filter.mpr ⟨List.get?_mem h, hpa⟩
          have := List.length_pos_of_mem hmem
          simp [hpa]; omega
        · simp [hpa]
      omega

theorem filter_listMove (p : α → Bool) (l : List α) (src dst : ℕ) :
    ((listMove l src dst).filter p).length = (l.filter p).length := by
  unfold listMove
  cases hg : l.get? src with
  | none => rfl
  | some a =>
    rw [filter_insertAt, filter_eraseAt p src l a hg]
    have : a ∈ l.filter p ∨ ¬ p a := by
      by_cases hpa : p a
      · left; exact List.mem_filter.mpr ⟨List.get?_mem hg, hpa⟩
      · right; exact hpa
    rcases this with hmem | hpa
    · have := List.length_pos_of_mem hmem
      split <;> omega
    · simp [hpa]

/-! ### Data model

`Constraint` models a Blender constraint on an owner pose bone, restricted
to the fields the add-on reads or writes.  `tag` models the presence of the
custom property `BAC_CONSTRAINT_TAG` (`"bac_addon_marker"`); `enabled`
models `constraint.enabled` (with `set_constraint_enabled` handling the
`enabled` / `mute` host variants, both collapsing to this one flag).
`targetObj` / `space_object` hold the name of the referenced armature
object. -/

theorem upsert_find_self (ps : List (String × List Constraint)) (b : String)
    (st : List Constraint) :
    (upsertStack ps b st).find? (fun p => p.1 = b) = some (b, st) := by
  induction ps with
  | nil => simp [upsertStack, List.find?]
  | cons p ps ih =>
    by_cases hp : p.1 = b
    · simp [upsertStack, hp, List.find?]
    · simp [upsertStack, hp, List.find?, ih]

theorem upsert_find_other (ps : List (String × List Constraint)) (b b' : String)
    (st : List Constraint) (h : b' ≠ b) :
    (upsertStack ps b st).find? (fun p => p.1 = b') = ps.find? (fun p => p.1 = b') := by
  induction ps with
  | nil => simp [upsertStack, List.find?, Ne.symm h]
  | cons p ps ih =>
    by_cases hp : p.1 = b
    · simp [upsertStack, hp, List.find?, Ne.symm h]
    · simp [upsertStack, hp, List.find?, ih]

theorem stackOf_setStack (s : BState) (b b' : String) (st : List Constraint) :
    stackOf (setStack s b st) b' = if b' = b then st else stackOf s b' := by
  by_cases h : b' = b
  · subst h; simp [stackOf, setStack, upsert_find_self]
  · simp [stackOf, setStack, upsert_find_other _ _ _ _ h, h]

theorem round_mono_of_le {x y : ℝ} (h : x ≤ y) : round x ≤ round y := by
  rw [round_eq, round_eq]
  exact Int.floor_mono (by linarith)

theorem snapMultiple_round (q : ℚ) (k : ℤ) (h : snapMultiple q = some k) :
    round ((q : ℝ) / (Real.pi / 2)) = k := by
  have hpiL : ((PI_LO : ℚ) : ℝ) < Real.pi := by
    have h6 := Real.pi_gt_d6
    have : ((PI_LO : ℚ) : ℝ) = 3.141592 := by norm_num [PI_LO]
    linarith [this ▸ h6]
  have hpiH : Real.pi < ((PI_HI : ℚ) : ℝ) := by
    have h6 := Real.pi_lt_d6
    have : ((PI_HI : ℚ) : ℝ) = 3.141593 := by norm_num [PI_HI]
    linarith [this ▸ h6]
  have hpi0 : (0 : ℝ) < Real.pi := Real.pi_pos
  have hL0 : (0 : ℝ) < ((PI_LO : ℚ) : ℝ) := by norm_num [PI_LO]
  have hH0 : (0 : ℝ) < ((PI_HI : ℚ) : ℝ) := by norm_num [PI_HI]
  have hform : (q : ℝ) / (Real.pi / 2) = 2 * (q : ℝ) / Real.pi := by
    field_simp
    ring
  obtain ⟨hab, hk⟩ : round (2 * q / PI_HI) = round (2 * q / PI_LO)
      ∧ round (2 * q / PI_HI) = k := by
    unfold snapMultiple at h
    split at h
    · exact ⟨by assumption, Option.some.inj h⟩
    · exact absurd h (by simp)
  have hcastH : ((2 * q / PI_HI : ℚ) : ℝ) = 2 * (q : ℝ) / ((PI_HI : ℚ) : ℝ) := by
    push_cast
    ring
  have hcastL : ((2 * q / PI_LO : ℚ) : ℝ) = 2 * (q : ℝ) / ((PI_LO : ℚ) : ℝ) := by
    push_cast
    ring
  have hrH : round (2 * (q : ℝ) / ((PI_HI : ℚ) : ℝ)) = round (2 * q / PI_HI : ℚ) := by
    rw [← hcastH, Rat.round_cast]
  have hrL : round (2 * (q : ℝ) / ((PI_LO : ℚ) : ℝ)) = round (2 * q / PI_LO : ℚ) := by
    rw [← hcastL, Rat.round_cast]
  rw [hform]
  rcases le_or_lt 0 (q : ℝ) with hq | hq
  · have h1 : 2 * (q : ℝ) / ((PI_HI : ℚ) : ℝ) ≤ 2 * (q : ℝ) / Real.pi := by
      rw [div_le_div_iff₀ hH0 hpi0]
      nlinarith
    have h2 : 2 * (q : ℝ) / Real.pi ≤ 2 * (q : ℝ) / ((PI_LO : ℚ) : ℝ) := by
      rw [div_le_div_iff₀ hpi0 hL0]
      nlinarith
    have r1 := round_mono_of_le h1
    have r2 := round_mono_of_le h2
    rw [hrH] at r1
    rw [hrL] at r2
    omega
  · have h1 : 2 * (q : ℝ) / ((PI_LO : ℚ) : ℝ) ≤ 2 * (q : ℝ) / Real.pi := by
      rw [div_le_div_iff₀ hL0 hpi0]
      nlinarith
    have h2 : 2 * (q : ℝ) / Real.pi ≤ 2 * (q : ℝ) / ((PI_HI : ℚ) : ℝ) := by
      rw [div_le_div_iff₀ hpi0 hH0]
      nlinarith
    have r1 := round_mono_of_le h1
    have r2 := round_mono_of_le h2
    rw [hrL] at r1
    rw [hrH] at r2
    omega

theorem nearest_multiple (x s : ℝ) (hs : 0 < s) (m : ℤ) :
    |x - round (x / s) * s| ≤ |x - m * s| := by
  have hne : s ≠ 0 := ne_of_gt hs
  have h0 : x - round (x / s) * s = (x / s - round (x / s)) * s := by
    field_simp
    ring
  have h1 : x - m * s = (x / s - m) * s := by
    field_simp
    ring
  rw [h0, h1, abs_mul, abs_mul, abs_of_pos hs]
  exact mul_le_mul_of_nonneg_right (round_le (x / s) m) hs.le

/-! ### Claim theorems -/

/-- C3: the claim states that an invalid mapping implies no enabled
tool-tagged constraint on the owner bone after synchronization.  The code
violates this: `_apply` returns early when the target pose bone does not
resolve, so a tagged constraint that was enabled while the mapping was
valid stays enabled.  On `s3ex` (mapping A→C invalid, enabled tagged
rotation-copy constraint on bone A), `_apply` — and the whole-collection
synchronization `update_preview` — are no-ops and the tagged constraint
remains enabled; note that the `self.is_valid()` conjunct of line 220
(which would disable it) is unreachable for invalid mappings because of
the early return of lines 205–206. -/
theorem C3_invalid_mapping_keeps_enabled_tagged_constraint :
    is_valid env0 s3ex (s3ex.mappings.getD 0 default) = false ∧
    applyMapping env0 s3ex 0 = s3ex ∧
    update_preview env0 s3ex = s3ex ∧
    (stackOf (applyMapping env0 s3ex 0) "A").any (fun c => c.tag && c.enabled) = true := by
  decide

/-- C4 counterexample: `_apply` disturbs a constraint it does not own.  In
`s4ex` the owner bone carries a non-tagged user constraint named
"BAC_ROT_COPY"; `_apply` adopts it by name lookup and rewrites its target,
subtarget and enabled flag, so the claim "every non-tool-tagged constraint
is left unchanged" is false. -/
theorem C4_foreign_reserved_name_disturbed :
    ((stackOf s4ex "A").map (fun c => (c.tag, c.enabled, c.subtarget, c.targetObj))
        = [(false, false, "", none)]) ∧
    ((stackOf (applyMapping env0 s4ex 0) "A").map
        (fun c => (c.tag, c.enabled, c.subtarget, c.targetObj))
      = [(false, true, "B", some "T")]) := by
  decide

/-- C2 counterexample: the bake operator does not restore `preview` to its
pre-bake value.  On `s2ex` the flag is `true` before the bake and `false`
after it (the `finally` block executes `state.preview = False`
unconditionally), on the failing-bake path as well as on the successful
one. -/
theorem C2_preview_not_restored :
    s2ex.preview = true ∧
    (bakeExec env0 s2ex false).map (fun t => t.preview) = some false ∧
    (bakeExec env0 s2ex true).map (fun t => t.preview) = some false := by
  decide

/-- C7 counterexample: after `remove_mapping` the active index is not
always clamped into the bounds of the remaining collection.  On `s7ex`
(one unselected mapping, `active_mapping = -1`) nothing is removed and
`min(-1, max(0, 0)) = -1` stays out of bounds of the one-element
collection. -/
theorem C7_active_index_not_clamped_into_bounds :
    (remove_mapping env0 s7ex).mappings.length = 1 ∧
    (remove_mapping env0 s7ex).active_mapping = -1 ∧
    ¬ (0 ≤ (remove_mapping env0 s7ex).active_mapping ∧
        (remove_mapping env0 s7ex).active_mapping
          < ((remove_mapping env0 s7ex).mappings.length : ℤ)) := by
  decide

/-! ### Structural lemmas about the model operations -/

theorem modifyIdx_of_ge (f : α → α) (n : ℕ) (l : List α) (h : l.length ≤ n) :
    modifyIdx f n l = l := by
  induction l generalizing n with
  | nil => cases n <;> rfl
  | cons a as ih =>
    cases n with
    | zero => simp at h
    | succ m => simp only [modifyIdx]; rw [ih m (by simpa using h)]

theorem modifyIdx_modifyIdx (f g : α → α) (n : ℕ) (l : List α) :
    modifyIdx f n (modifyIdx g n l) = modifyIdx (fun a => f (g a)) n l := by
  induction l generalizing n with
  | nil => cases n <;> rfl
  | cons a as ih => cases n with
    | zero => rfl
    | succ m => simp only [modifyIdx]; rw [ih m]

theorem get?_modifyIdx_self (f : α → α) (n : ℕ) (l : List α) :
    (modifyIdx f n l).get? n = (l.get? n).map f := by
  induction l generalizing n with
  | nil => cases n <;> rfl
  | cons a as ih => cases n with
    | zero => rfl
    | succ m => simpa [modifyIdx] using ih m

theorem get?_modifyIdx_ne (f : α → α) (n k : ℕ) (l : List α) (h : k ≠ n) :
    (modifyIdx f n l).get? k = l.get? k := by
  induction l generalizing n k with
  | nil => cases n <;> rfl
  | cons a as ih =>
    cases n with
    | zero => cases k with
      | zero => exact absurd rfl h
      | succ j => rfl
    | succ m => cases k with
      | zero => rfl
      | succ j => simpa [modifyIdx] using ih m j (fun hc => h (by omega))

theorem map_modifyIdx_of_proj (proj : α → β) (f : α → α) (h : ∀ a, proj (f a) = proj a)
    (n : ℕ) (l : List α) : (modifyIdx f n l).map proj = l.map proj := by
  induction l generalizing n with
  | nil => cases n <;> rfl
  | cons a as ih => cases n with
    | zero => simp [modifyIdx, h]
    | succ m => simpa [modifyIdx] using ih m

theorem applyMapping_ex (env : Env) (s : BState) (i : ℕ) :
    ∃ cs, applyMapping env s i = { s with conStacks := cs } := by
  unfold applyMapping
  split
  · exact ⟨s.conStacks, rfl⟩
  · split
    · exact ⟨_, rfl⟩
    · exact ⟨s.conStacks, rfl⟩

theorem clearConstraints_ex (env : Env) (s : BState) (m : Mapping) :
    ∃ cs, clearConstraints env s m = { s with conStacks := cs } := by
  unfold clearConstraints
  split
  · exact ⟨s.conStacks, rfl⟩
  · exact ⟨_, rfl⟩

theorem update_select_ex (env : Env) (s : BState) :
    ∃ a b, update_select env s = { s with ownerSelBones := a, targetSelBones := b } := by
  unfold update_select
  split
  · split
    · exact ⟨_, _, rfl⟩
    · exact ⟨s.ownerSelBones, s.targetSelBones, rfl⟩
  · exact ⟨s.ownerSelBones, s.targetSelBones, rfl⟩

theorem update_active_ex (env : Env) (s : BState) :
    ∃ a b, update_active env s = { s with ownerActiveBone := a, targetActiveBone := b } := by
  unfold update_active
  repeat' split
  all_goals try exact ⟨_, _, rfl⟩
  all_goals dsimp only
  all_goals repeat' split
  all_goals exact ⟨_, _, rfl⟩

/-! ### Projection lemmas (frame conditions) -/

@[simp] theorem applyMapping_mappings (env : Env) (s : BState) (i : ℕ) :
    (applyMapping env s i).mappings = s.mappings := by
  obtain ⟨x0, h⟩ := applyMapping_ex env s i
  rw [h]

@[simp] theorem applyMapping_active_mapping (env : Env) (s : BState) (i : ℕ) :
    (applyMapping env s i).active_mapping = s.active_mapping := by
  obtain ⟨x0, h⟩ := applyMapping_ex env s i
  rw [h]

@[simp] theorem applyMapping_selected_count (env : Env) (s : BState) (i : ℕ) :
    (applyMapping env s i).selected_count = s.selected_count := by
  obtain ⟨x0, h⟩ := applyMapping_ex env s i
  rw [h]

@[simp] theorem applyMapping_editing_type (env : Env) (s : BState) (i : ℕ) :
    (applyMapping env s i).editing_type = s.editing_type := by
  obtain ⟨x0, h⟩ := applyMapping_ex env s i
  rw [h]

@[simp] theorem applyMapping_ownerObj (env : Env) (s : BState) (i : ℕ) :
    (applyMapping env s i).ownerObj = s.ownerObj := by
  obtain ⟨x0, h⟩ := applyMapping_ex env s i
  rw [h]

@[simp] theorem applyMapping_targetObj (env : Env) (s : BState) (i : ℕ) :
    (applyMapping env s i).targetObj = s.targetObj := by
  obtain ⟨x0, h⟩ := applyMapping_ex env s i
  rw [h]

@[simp] theorem applyMapping_preview (env : Env) (s : BState) (i : ℕ) :
    (applyMapping env s i).preview = s.preview := by
  obtain ⟨x0, h⟩ := applyMapping_ex env s i
  rw [h]

@[simp] theorem applyMapping_sync_select (env : Env) (s : BState) (i : ℕ) :
    (applyMapping env s i).sync_select = s.sync_select := by
  obtain ⟨x0, h⟩ := applyMapping_ex env s i
  rw [h]

@[simp] theorem applyMapping_calc_offset (env : Env) (s : BState) (i : ℕ) :
    (applyMapping env s i).calc_offset = s.calc_offset := by
  obtain ⟨x0, h⟩ := applyMapping_ex env s i
  rw [h]

@[simp] theorem applyMapping_ortho_offset (env : Env) (s : BState) (i : ℕ) :
    (applyMapping env s i).ortho_offset = s.ortho_offset := by
  obtain ⟨x0, h⟩ := applyMapping_ex env s i
  rw [h]

@[simp] theorem applyMapping_ownerSelBones (env : Env) (s : BState) (i : ℕ) :
    (applyMapping env s i).ownerSelBones = s.ownerSelBones := by
  obtain ⟨x0, h⟩ := applyMapping_ex env s i
  rw [h]

@[simp] theorem applyMapping_targetSelBones (env : Env) (s : BState) (i : ℕ) :
    (applyMapping env s i).targetSelBones = s.targetSelBones := by
  obtain ⟨x0, h⟩ := applyMapping_ex env s i
  rw [h]

@[simp] theorem applyMapping_ownerActiveBone (env : Env) (s : BState) (i : ℕ) :
    (applyMapping env s i).ownerActiveBone = s.ownerActiveBone := by
  obtain ⟨x0, h⟩ := applyMapping_ex env s i
  rw [h]

@[simp] theorem applyMapping_targetActiveBone (env : Env) (s : BState) (i : ℕ) :
    (applyMapping env s i).targetActiveBone = s.targetActiveBone := by
  obtain ⟨x0, h⟩ := applyMapping_ex env s i
  rw [h]

@[simp] theorem clearConstraints_mappings (env : Env) (s : BState) (m : Mapping) :
    (clearConstraints env s m).mappings = s.mappings := by
  obtain ⟨x0, h⟩ := clearConstraints_ex env s m
  rw [h]

@[simp] theorem clearConstraints_active_mapping (env : Env) (s : BState) (m : Mapping) :
    (clearConstraints env s m).active_mapping = s.active_mapping := by
  obtain ⟨x0, h⟩ := clearConstraints_ex env s m
  rw [h]

@[simp] theorem clearConstraints_selected_count (env : Env) (s : BState) (m : Mapping) :
    (clearConstraints env s m).selected_count = s.selected_count := by
  obtain ⟨x0, h⟩ := clearConstraints_ex env s m
  rw [h]

@[simp] theorem clearConstraints_editing_type (env : Env) (s : BState) (m : Mapping) :
    (clearConstraints env s m).editing_type = s.editing_type := by
  obtain ⟨x0, h⟩ := clearConstraints_ex env s m
  rw [h]

@[simp] theorem clearConstraints_ownerObj (env : Env) (s : BState) (m : Mapping) :
    (clearConstraints env s m).ownerObj = s.ownerObj := by
  obtain ⟨x0, h⟩ := clearConstraints_ex env s m
  rw [h]

@[simp] theorem clearConstraints_targetObj (env : Env) (s : BState) (m : Mapping) :
    (clearConstraints env s m).targetObj = s.targetObj := by
  obtain ⟨x0, h⟩ := clearConstraints_ex env s m
  rw [h]

@[simp] theorem clearConstraints_preview (env : Env) (s : BState) (m : Mapping) :
    (clearConstraints env s m).preview = s.preview := by
  obtain ⟨x0, h⟩ := clearConstraints_ex env s m
  rw [h]

@[simp] theorem clearConstraints_sync_select (env : Env) (s : BState) (m : Mapping) :
    (clearConstraints env s m).sync_select = s.sync_select := by
  obtain ⟨x0, h⟩ := clearConstraints_ex env s m
  rw [h]

@[simp] theorem clearConstraints_calc_offset (env : Env) (s : BState) (m : Mapping) :
    (clearConstraints env s m).calc_offset = s.calc_offset := by
  obtain ⟨x0, h⟩ := clearConstraints_ex env s m
  rw [h]

@[simp] theorem clearConstraints_ortho_offset (env : Env) (s : BState) (m : Mapping) :
    (clearConstraints env s m).ortho_offset = s.ortho_offset := by
  obtain ⟨x0, h⟩ := clearConstraints_ex env s m
  rw [h]

@[simp] theorem clearConstraints_ownerSelBones (env : Env) (s : BState) (m : Mapping) :
    (clearConstraints env s m).ownerSelBones = s.ownerSelBones := by
  obtain ⟨x0, h⟩ := clearConstraints_ex env s m
  rw [h]

@[simp] theorem clearConstraints_targetSelBones (env : Env) (s : BState) (m : Mapping) :
    (clearConstraints env s m).targetSelBones = s.targetSelBones := by
  obtain ⟨x0, h⟩ := clearConstraints_ex env s m
  rw [h]

@[simp] theorem clearConstraints_ownerActiveBone (env : Env) (s : BState) (m : Mapping) :
    (clearConstraints env s m).ownerActiveBone = s.ownerActiveBone := by
  obtain ⟨x0, h⟩ := clearConstraints_ex env s m
  rw [h]

@[simp] theorem clearConstraints_targetActiveBone (env : Env) (s : BState) (m : Mapping) :
    (clearConstraints env s m).targetActiveBone = s.targetActiveBone := by
  obtain ⟨x0, h⟩ := clearConstraints_ex env s m
  rw [h]

@[simp] theorem update_select_mappings (env : Env) (s : BState) :
    (update_select env s).mappings = s.mappings := by
  obtain ⟨x0, x1, h⟩ := update_select_ex env s
  rw [h]

@[simp] theorem update_select_active_mapping (env : Env) (s : BState) :
    (update_select env s).active_mapping = s.active_mapping := by
  obtain ⟨x0, x1, h⟩ := update_select_ex env s
  rw [h]

@[simp] theorem update_select_selected_count (env : Env) (s : BState) :
    (update_select env s).selected_count = s.selected_count := by
  obtain ⟨x0, x1, h⟩ := update_select_ex env s
  rw [h]

@[simp] theorem update_select_editing_type (env : Env) (s : BState) :
    (update_select env s).editing_type = s.editing_type := by
  obtain ⟨x0, x1, h⟩ := update_select_ex env s
  rw [h]

@[simp] theorem update_select_ownerObj (env : Env) (s : BState) :
    (update_select env s).ownerObj = s.ownerObj := by
  obtain ⟨x0, x1, h⟩ := update_select_ex env s
  rw [h]

@[simp] theorem update_select_targetObj (env : Env) (s : BState) :
    (update_select env s).targetObj = s.targetObj := by
  obtain ⟨x0, x1, h⟩ := update_select_ex env s
  rw [h]

@[simp] theorem update_select_preview (env : Env) (s : BState) :
    (update_select env s).preview = s.preview := by
  obtain ⟨x0, x1, h⟩ := update_select_ex env s
  rw [h]

@[simp] theorem update_select_sync_select (env : Env) (s : BState) :
    (update_select env s).sync_select = s.sync_select := by
  obtain ⟨x0, x1, h⟩ := update_select_ex env s
  rw [h]

@[simp] theorem update_select_calc_offset (env : Env) (s : BState) :
    (update_select env s).calc_offset = s.calc_offset := by
  obtain ⟨x0, x1, h⟩ := update_select_ex env s
  rw [h]

@[simp] theorem update_select_ortho_offset (env : Env) (s : BState) :
    (update_select env s).ortho_offset = s.ortho_offset := by
  obtain ⟨x0, x1, h⟩ := update_select_ex env s
  rw [h]

@[simp] theorem update_select_ownerActiveBone (env : Env) (s : BState) :
    (update_select env s).ownerActiveBone = s.ownerActiveBone := by
  obtain ⟨x0, x1, h⟩ := update_select_ex env s
  rw [h]

@[simp] theorem update_select_targetActiveBone (env : Env) (s : BState) :
    (update_select env s).targetActiveBone = s.targetActiveBone := by
  obtain ⟨x0, x1, h⟩ := update_select_ex env s
  rw [h]

@[simp] theorem update_select_conStacks (env : Env) (s : BState) :
    (update_select env s).conStacks = s.conStacks := by
  obtain ⟨x0, x1, h⟩ := update_select_ex env s
  rw [h]

@[simp] theorem update_active_mappings (env : Env) (s : BState) :
    (update_active env s).mappings = s.mappings := by
  obtain ⟨x0, x1, h⟩ := update_active_ex env s
  rw [h]

@[simp] theorem update_active_active_mapping (env : Env) (s : BState) :
    (update_active env s).active_mapping = s.active_mapping := by
  obtain ⟨x0, x1, h⟩ := update_active_ex env s
  rw [h]

@[simp] theorem update_active_selected_count (env : Env) (s : BState) :
    (update_active env s).selected_count = s.selected_count := by
  obtain ⟨x0, x1, h⟩ := update_active_ex env s
  rw [h]

@[simp] theorem update_active_editing_type (env : Env) (s : BState) :
    (update_active env s).editing_type = s.editing_type := by
  obtain ⟨x0, x1, h⟩ := update_active_ex env s
  rw [h]

@[simp] theorem update_active_ownerObj (env : Env) (s : BState) :
    (update_active env s).ownerObj = s.ownerObj := by
  obtain ⟨x0, x1, h⟩ := update_active_ex env s
  rw [h]

@[simp] theorem update_active_targetObj (env : Env) (s : BState) :
    (update_active env s).targetObj = s.targetObj := by
  obtain ⟨x0, x1, h⟩ := update_active_ex env s
  rw [h]

@[simp] theorem update_active_preview (env : Env) (s : BState) :
    (update_active env s).preview = s.preview := by
  obtain ⟨x0, x1, h⟩ := update_active_ex env s
  rw [h]

@[simp] theorem update_active_sync_select (env : Env) (s : BState) :
    (update_active env s).sync_select = s.sync_select := by
  obtain ⟨x0, x1, h⟩ := update_active_ex env s
  rw [h]

@[simp] theorem update_active_calc_offset (env : Env) (s : BState) :
    (update_active env s).calc_offset = s.calc_offset := by
  obtain ⟨x0, x1, h⟩ := update_active_ex env s
  rw [h]

@[simp] theorem update_active_ortho_offset (env : Env) (s : BState) :
    (update_active env s).ortho_offset = s.ortho_offset := by
  obtain ⟨x0, x1, h⟩ := update_active_ex env s
  rw [h]

@[simp] theorem update_active_ownerSelBones (env : Env) (s : BState) :
    (update_active env s).ownerSelBones = s.ownerSelBones := by
  obtain ⟨x0, x1, h⟩ := update_active_ex env s
  rw [h]

@[simp] theorem update_active_targetSelBones (env : Env) (s : BState) :
    (update_active env s).targetSelBones = s.targetSelBones := by
  obtain ⟨x0, x1, h⟩ := update_active_ex env s
  rw [h]

@[simp] theorem update_active_conStacks (env : Env) (s : BState) :
    (update_active env s).conStacks = s.conStacks := by
  obtain ⟨x0, x1, h⟩ := update_active_ex env s
  rw [h]

@[simp] theorem setActive_mappings (env : Env) (s : BState) (v : ℤ) :
    (setActive env s v).mappings = s.mappings := by
  unfold setActive
  obtain ⟨a, b, h⟩ := update_active_ex env { s with active_mapping := v }
  rw [h]

@[simp] theorem setActive_active_mapping (env : Env) (s : BState) (v : ℤ) :
    (setActive env s v).active_mapping = v := by
  unfold setActive
  obtain ⟨a, b, h⟩ := update_active_ex env { s with active_mapping := v }
  rw [h]

@[simp] theorem setActive_selected_count (env : Env) (s : BState) (v : ℤ) :
    (setActive env s v).selected_count = s.selected_count := by
  unfold setActive
  obtain ⟨a, b, h⟩ := update_active_ex env { s with active_mapping := v }
  rw [h]

@[simp] theorem setActive_editing_type (env : Env) (s : BState) (v : ℤ) :
    (setActive env s v).editing_type = s.editing_type := by
  unfold setActive
  obtain ⟨a, b, h⟩ := update_active_ex env { s with active_mapping := v }
  rw [h]

@[simp] theorem setActive_ownerObj (env : Env) (s : BState) (v : ℤ) :
    (setActive env s v).ownerObj = s.ownerObj := by
  unfold setActive
  obtain ⟨a, b, h⟩ := update_active_ex env { s with active_mapping := v }
  rw [h]

@[simp] theorem setActive_targetObj (env : Env) (s : BState) (v : ℤ) :
    (setActive env s v).targetObj = s.targetObj := by
  unfold setActive
  obtain ⟨a, b, h⟩ := update_active_ex env { s with active_mapping := v }
  rw [h]

@[simp] theorem setActive_preview (env : Env) (s : BState) (v : ℤ) :
    (setActive env s v).preview = s.preview := by
  unfold setActive
  obtain ⟨a, b, h⟩ := update_active_ex env { s with active_mapping := v }
  rw [h]

@[simp] theorem setActive_sync_select (env : Env) (s : BState) (v : ℤ) :
    (setActive env s v).sync_select = s.sync_select := by
  unfold setActive
  obtain ⟨a, b, h⟩ := update_active_ex env { s with active_mapping := v }
  rw [h]

@[simp] theorem setActive_calc_offset (env : Env) (s : BState) (v : ℤ) :
    (setActive env s v).calc_offset = s.calc_offset := by
  unfold setActive
  obtain ⟨a, b, h⟩ := update_active_ex env { s with active_mapping := v }
  rw [h]

@[simp] theorem setActive_ortho_offset (env : Env) (s : BState) (v : ℤ) :
    (setActive env s v).ortho_offset = s.ortho_offset := by
  unfold setActive
  obtain ⟨a, b, h⟩ := update_active_ex env { s with active_mapping := v }
  rw [h]

@[simp] theorem setActive_ownerSelBones (env : Env) (s : BState) (v : ℤ) :
    (setActive env s v).ownerSelBones = s.ownerSelBones := by
  unfold setActive
  obtain ⟨a, b, h⟩ := update_active_ex env { s with active_mapping := v }
  rw [h]

@[simp] theorem setActive_targetSelBones (env : Env) (s : BState) (v : ℤ) :
    (setActive env s v).targetSelBones = s.targetSelBones := by
  unfold setActive
  obtain ⟨a, b, h⟩ := update_active_ex env { s with active_mapping := v }
  rw [h]

@[simp] theorem setActive_conStacks (env : Env) (s : BState) (v : ℤ) :
    (setActive env s v).conStacks = s.conStacks := by
  unfold setActive
  obtain ⟨a, b, h⟩ := update_active_ex env { s with active_mapping := v }
  rw [h]

@[simp] theorem setSelectedCount_mappings (env : Env) (s : BState) (v : ℤ) :
    (setSelectedCount env s v).mappings = s.mappings := by
  unfold setSelectedCount
  obtain ⟨a, b, h⟩ := update_select_ex env { s with selected_count := v }
  rw [h]

@[simp] theorem setSelectedCount_active_mapping (env : Env) (s : BState) (v : ℤ) :
    (setSelectedCount env s v).active_mapping = s.active_mapping := by
  unfold setSelectedCount
  obtain ⟨a, b, h⟩ := update_select_ex env { s with selected_count := v }
  rw [h]

@[simp] theorem setSelectedCount_selected_count (env : Env) (s : BState) (v : ℤ) :
    (setSelectedCount env s v).selected_count = v := by
  unfold setSelectedCount
  obtain ⟨a, b, h⟩ := update_select_ex env { s with selected_count := v }
  rw [h]

@[simp] theorem setSelectedCount_editing_type (env : Env) (s : BState) (v : ℤ) :
    (setSelectedCount env s v).editing_type = s.editing_type := by
  unfold setSelectedCount
  obtain ⟨a, b, h⟩ := update_select_ex env { s with selected_count := v }
  rw [h]

@[simp] theorem setSelectedCount_ownerObj (env : Env) (s : BState) (v : ℤ) :
    (setSelectedCount env s v).ownerObj = s.ownerObj := by
  unfold setSelectedCount
  obtain ⟨a, b, h⟩ := update_select_ex env { s with selected_count := v }
  rw [h]

@[simp] theorem setSelectedCount_targetObj (env : Env) (s : BState) (v : ℤ) :
    (setSelectedCount env s v).targetObj = s.targetObj := by
  unfold setSelectedCount
  obtain ⟨a, b, h⟩ := update_select_ex env { s with selected_count := v }
  rw [h]

@[simp] theorem setSelectedCount_preview (env : Env) (s : BState) (v : ℤ) :
    (setSelectedCount env s v).preview = s.preview := by
  unfold setSelectedCount
  obtain ⟨a, b, h⟩ := update_select_ex env { s with selected_count := v }
  rw [h]

@[simp] theorem setSelectedCount_sync_select (env : Env) (s : BState) (v : ℤ) :
    (setSelectedCount env s v).sync_select = s.sync_select := by
  unfold setSelectedCount
  obtain ⟨a, b, h⟩ := update_select_ex env { s with selected_count := v }
  rw [h]

@[simp] theorem setSelectedCount_calc_offset (env : Env) (s : BState) (v : ℤ) :
    (setSelectedCount env s v).calc_offset = s.calc_offset := by
  unfold setSelectedCount
  obtain ⟨a, b, h⟩ := update_select_ex env { s with selected_count := v }
  rw [h]

@[simp] theorem setSelectedCount_ortho_offset (env : Env) (s : BState) (v : ℤ) :
    (setSelectedCount env s v).ortho_offset = s.ortho_offset := by
  unfold setSelectedCount
  obtain ⟨a, b, h⟩ := update_select_ex env { s with selected_count := v }
  rw [h]

@[simp] theorem setSelectedCount_ownerActiveBone (env : Env) (s : BState) (v : ℤ) :
    (setSelectedCount env s v).ownerActiveBone = s.ownerActiveBone := by
  unfold setSelectedCount
  obtain ⟨a, b, h⟩ := update_select_ex env { s with selected_count := v }
  rw [h]

@[simp] theorem setSelectedCount_targetActiveBone (env : Env) (s : BState) (v : ℤ) :
    (setSelectedCount env s v).targetActiveBone = s.targetActiveBone := by
  unfold setSelectedCount
  obtain ⟨a, b, h⟩ := update_select_ex env { s with selected_count := v }
  rw [h]

@[simp] theorem setSelectedCount_conStacks (env : Env) (s : BState) (v : ℤ) :
    (setSelectedCount env s v).conStacks = s.conStacks := by
  unfold setSelectedCount
  obtain ⟨a, b, h⟩ := update_select_ex env { s with selected_count := v }
  rw [h]

theorem setSelected_mappings (env : Env) (s : BState) (i : ℕ) (b : Bool) :
    (setSelected env s i b).mappings
      = modifyIdx (fun m => { m with selected := b }) i s.mappings := by
  unfold setSelected
  simp

theorem setSelected_selected_count (env : Env) (s : BState) (i : ℕ) (b : Bool) :
    (setSelected env s i b).selected_count
      = countSelected (modifyIdx (fun m => { m with selected := b }) i s.mappings) := by
  unfold setSelected
  simp

theorem setSelected_conStacks (env : Env) (s : BState) (i : ℕ) (b : Bool) :
    (setSelected env s i b).conStacks = s.conStacks := by
  unfold setSelected
  simp

theorem setSelected_active_mapping (env : Env) (s : BState) (i : ℕ) (b : Bool) :
    (setSelected env s i b).active_mapping = s.active_mapping := by
  unfold setSelected
  simp

theorem setSelected_ownerObj (env : Env) (s : BState) (i : ℕ) (b : Bool) :
    (setSelected env s i b).ownerObj = s.ownerObj := by
  unfold setSelected
  simp

theorem setSelected_targetObj (env : Env) (s : BState) (i : ℕ) (b : Bool) :
    (setSelected env s i b).targetObj = s.targetObj := by
  unfold setSelected
  simp

theorem foldl_preserves {β γ : Type} (f : BState → β → BState) (proj : BState → γ)
    (h : ∀ t i, proj (f t i) = proj t) (l : List β) (s : BState) :
    proj (l.foldl f s) = proj s := by
  induction l generalizing s with
  | nil => rfl
  | cons a as ih => rw [List.foldl_cons, ih, h]

@[simp] theorem update_preview_mappings (env : Env) (s : BState) :
    (update_preview env s).mappings = s.mappings := by
  unfold update_preview
  exact foldl_preserves _ (fun t => t.mappings) (fun t i => applyMapping_mappings env t i) _ s

@[simp] theorem update_preview_preview (env : Env) (s : BState) :
    (update_preview env s).preview = s.preview := by
  unfold update_preview
  exact foldl_preserves _ (fun t => t.preview) (fun t i => applyMapping_preview env t i) _ s

@[simp] theorem update_preview_selected_count (env : Env) (s : BState) :
    (update_preview env s).selected_count = s.selected_count := by
  unfold update_preview
  exact foldl_preserves _ (fun t => t.selected_count)
    (fun t i => applyMapping_selected_count env t i) _ s

@[simp] theorem update_preview_active_mapping (env : Env) (s : BState) :
    (update_preview env s).active_mapping = s.active_mapping := by
  unfold update_preview
  exact foldl_preserves _ (fun t => t.active_mapping)
    (fun t i => applyMapping_active_mapping env t i) _ s

@[simp] theorem setPreview_preview (env : Env) (s : BState) (v : Bool) :
    (setPreview env s v).preview = v := by
  unfold setPreview
  simp

@[simp] theorem setPreview_mappings (env : Env) (s : BState) (v : Bool) :
    (setPreview env s v).mappings = s.mappings := by
  unfold setPreview
  simp

theorem eraseAt_of_ge (n : ℕ) (l : List α) (h : l.length ≤ n) : eraseAt n l = l := by
  induction l generalizing n with
  | nil => cases n <;> rfl
  | cons a as ih =>
    cases n with
    | zero => simp at h
    | succ m => simp only [eraseAt]; rw [ih m (by simpa using h)]

theorem removeStep_mappings (env : Env) (t : BState) (i : ℕ) :
    (removeStep env t i).mappings = eraseAt i t.mappings := by
  unfold removeStep
  cases hg : t.mappings.get? i with
  | none =>
    have : t.mappings.length ≤ i := by
      by_contra hc
      push_neg at hc
      exact absurd hg (by simp [List.get?_eq_get hc, hc])
    simp [eraseAt_of_ge _ _ this]
  | some m => simp

theorem removeStep_active_mapping (env : Env) (t : BState) (i : ℕ) :
    (removeStep env t i).active_mapping = t.active_mapping := by
  unfold removeStep
  cases t.mappings.get? i with
  | none => rfl
  | some m => simp

theorem removeStep_ownerObj (env : Env) (t : BState) (i : ℕ) :
    (removeStep env t i).ownerObj = t.ownerObj := by
  unfold removeStep
  cases t.mappings.get? i with
  | none => rfl
  | some m => simp

theorem removeStep_targetObj (env : Env) (t : BState) (i : ℕ) :
    (removeStep env t i).targetObj = t.targetObj := by
  unfold removeStep
  cases t.mappings.get? i with
  | none => rfl
  | some m => simp

theorem map_projNoOffset_offset (e : ℚ × ℚ × ℚ) (n : ℕ) (l : List Mapping) :
    (modifyIdx (fun m => { m with offset := e }) n l).map projNoOffset
      = l.map projNoOffset :=
  map_modifyIdx_of_proj projNoOffset (fun m => { m with offset := e }) (fun _ => rfl) n l

theorem map_projNoOffset_rotoffs (n : ℕ) (l : List Mapping) :
    (modifyIdx (fun m => { m with has_rotoffs := true }) n l).map projNoOffset
      = l.map projNoOffset :=
  map_modifyIdx_of_proj projNoOffset (fun m => { m with has_rotoffs := true }) (fun _ => rfl) n l

theorem on_target_mappings_proj (env : Env) (s : BState) (i : ℕ) :
    (on_target env s i).mappings.map projNoOffset = s.mappings.map projNoOffset := by
  unfold on_target
  split
  · rfl
  · split
    · dsimp only
      split
      · simp [map_projNoOffset_offset, map_projNoOffset_rotoffs]
      · simp
    · simp

theorem on_target_active_mapping (env : Env) (s : BState) (i : ℕ) :
    (on_target env s i).active_mapping = s.active_mapping := by
  unfold on_target
  split
  · rfl
  · split
    · dsimp only
      split <;> simp
    · simp

theorem on_target_selected_count (env : Env) (s : BState) (i : ℕ) :
    (on_target env s i).selected_count = s.selected_count := by
  unfold on_target
  split
  · rfl
  · split
    · dsimp only
      split <;> simp
    · simp

theorem on_target_ownerObj (env : Env) (s : BState) (i : ℕ) :
    (on_target env s i).ownerObj = s.ownerObj := by
  unfold on_target
  split
  · rfl
  · split
    · dsimp only
      split <;> simp
    · simp

theorem on_target_targetObj (env : Env) (s : BState) (i : ℕ) :
    (on_target env s i).targetObj = s.targetObj := by
  unfold on_target
  split
  · rfl
  · split
    · dsimp only
      split <;> simp
    · simp

theorem setMappingTarget_mappings_proj (env : Env) (s : BState) (i : ℕ) (t : String) :
    (setMappingTarget env s i t).mappings.map projNoOffset
      = (modifyIdx (fun m => { m with target := t }) i s.mappings).map projNoOffset := by
  unfold setMappingTarget
  rw [on_target_mappings_proj]

theorem setMappingTarget_length (env : Env) (s : BState) (i : ℕ) (t : String) :
    (setMappingTarget env s i t).mappings.length = s.mappings.length := by
  have h := congrArg List.length (setMappingTarget_mappings_proj env s i t)
  simpa [modifyIdx_length] using h

theorem setMappingTarget_active_mapping (env : Env) (s : BState) (i : ℕ) (t : String) :
    (setMappingTarget env s i t).active_mapping = s.active_mapping := by
  unfold setMappingTarget
  rw [on_target_active_mapping]

theorem setMappingTarget_selected_count (env : Env) (s : BState) (i : ℕ) (t : String) :
    (setMappingTarget env s i t).selected_count = s.selected_count := by
  unfold setMappingTarget
  rw [on_target_selected_count]

theorem setMappingSelectedOwner_mappings (env : Env) (s : BState) (i : ℕ) (nm : String) :
    (setMappingSelectedOwner env s i nm).mappings
      = modifyIdx (fun m => { m with selected_owner := nm, owner := nm }) i s.mappings := by
  unfold setMappingSelectedOwner
  cases hg : (modifyIdx (fun m => { m with selected_owner := nm }) i s.mappings).get? i with
  | none =>
    have hlen : s.mappings.length ≤ i := by
      by_contra hc
      push_neg at hc
      have hc2 : i < (modifyIdx (fun m => { m with selected_owner := nm }) i s.mappings).length := by
        rw [modifyIdx_length]; exact hc
      exact absurd hg (by simp [List.get?_eq_get hc2, hc2])
    simp only
    rw [modifyIdx_of_ge _ _ _ hlen, modifyIdx_of_ge _ _ _ hlen]
    simp [List.getElem?_eq_none hlen]
  | some m =>
    dsimp only
    rw [hg]
    simp only [applyMapping_mappings, clearConstraints_mappings]
    rw [modifyIdx_modifyIdx]

theorem setMappingSelectedOwner_active_mapping (env : Env) (s : BState) (i : ℕ) (nm : String) :
    (setMappingSelectedOwner env s i nm).active_mapping = s.active_mapping := by
  unfold setMappingSelectedOwner
  cases hg : (modifyIdx (fun m => { m with selected_owner := nm }) i s.mappings).get? i with
  | none =>
    dsimp only
    rw [hg]
  | some m =>
    dsimp only
    rw [hg]
    simp

theorem setMappingSelectedOwner_selected_count (env : Env) (s : BState) (i : ℕ) (nm : String) :
    (setMappingSelectedOwner env s i nm).selected_count = s.selected_count := by
  unfold setMappingSelectedOwner
  cases hg : (modifyIdx (fun m => { m with selected_owner := nm }) i s.mappings).get? i with
  | none =>
    dsimp only
    rw [hg]
  | some m =>
    dsimp only
    rw [hg]
    simp

theorem count_owner_eq_of_proj (l1 l2 : List Mapping)
    (h : l1.map projNoOffset = l2.map projNoOffset) (nm : String) :
    (l1.filter (fun m => decide (m.owner = nm))).length
      = (l2.filter (fun m => decide (m.owner = nm))).length := by
  have h2 : l1.map (fun m => m.owner) = l2.map (fun m => m.owner) := by
    have h3 := congrArg (List.map (fun p :
      String × String × String × Bool × Bool × (Bool × Bool × Bool) × ℚ × Bool => p.2.1)) h
    simpa [List.map_map, Function.comp, projNoOffset] using h3
  rw [← List.countP_eq_length_filter, ← List.countP_eq_length_filter]
  have c1 : List.countP (fun m : Mapping => decide (m.owner = nm)) l1
      = List.countP (fun o => decide (o = nm)) (l1.map (fun m => m.owner)) := by
    rw [List.countP_map]
    rfl
  have c2 : List.countP (fun m : Mapping => decide (m.owner = nm)) l2
      = List.countP (fun o => decide (o = nm)) (l2.map (fun m => m.owner)) := by
    rw [List.countP_map]
    rfl
  rw [c1, c2, h2]

theorem countSelected_eq_of_proj (l1 l2 : List Mapping)
    (h : l1.map projNoOffset = l2.map projNoOffset) :
    countSelected l1 = countSelected l2 := by
  have h2 : l1.map (fun m => m.selected) = l2.map (fun m => m.selected) := by
    have h3 := congrArg (List.map (fun p :
      String × String × String × Bool × Bool × (Bool × Bool × Bool) × ℚ × Bool =>
        p.2.2.2.2.2.2.2)) h
    simpa [List.map_map, Function.comp, projNoOffset] using h3
  unfold countSelected
  rw [← List.countP_eq_length_filter, ← List.countP_eq_length_filter]
  have c1 : List.countP (fun m : Mapping => m.selected) l1
      = List.countP (fun b : Bool => b) (l1.map (fun m => m.selected)) := by
    rw [List.countP_map]
    rfl
  have c2 : List.countP (fun m : Mapping => m.selected) l2
      = List.countP (fun b : Bool => b) (l2.map (fun m => m.selected)) := by
    rw [List.countP_map]
    rfl
  rw [c1, c2, h2]

theorem findOwnerIdx_spec (nm : String) (l : List Mapping) (k i : ℕ)
    (h : findOwnerIdx nm l k = some i) :
    k ≤ i ∧ i - k < l.length ∧ (l.getD (i - k) default).owner = nm := by
  induction l generalizing k with
  | nil => simp [findOwnerIdx] at h
  | cons m ms ih =>
    by_cases hm : m.owner = nm
    · simp [findOwnerIdx, hm] at h
      subst h
      simp [hm]
    · simp only [findOwnerIdx, if_neg hm] at h
      obtain ⟨h1, h2, h3⟩ := ih (k + 1) h
      refine ⟨by omega, by simp only [List.length_cons]; omega, ?_⟩
      have hik : i - k = (i - (k + 1)) + 1 := by omega
      rw [hik]
      simpa using h3

theorem findOwnerIdx_isSome (nm : String) (l : List Mapping) (k : ℕ)
    (h : ∃ m ∈ l, m.owner = nm) : (findOwnerIdx nm l k).isSome := by
  induction l generalizing k with
  | nil => simp at h
  | cons m ms ih =>
    by_cases hm : m.owner = nm
    · simp [findOwnerIdx, hm]
    · simp only [findOwnerIdx, if_neg hm]
      apply ih
      rcases h with ⟨m', hm', ho⟩
      rcases List.mem_cons.mp hm' with rfl | hmem
      · exact absurd ho hm
      · exact ⟨m', hmem, ho⟩

theorem get_mapping_by_owner_spec (s : BState) (nm : String) (i : ℕ)
    (h : get_mapping_by_owner s nm = some i) :
    i < s.mappings.length ∧ (s.mappings.getD i default).owner = nm := by
  unfold get_mapping_by_owner at h
  split at h
  · have := findOwnerIdx_spec nm s.mappings 0 i h
    simpa using this
  · exact absurd h (by simp)

theorem get_mapping_by_owner_isSome (s : BState) (nm : String) (hnm : nm ≠ "")
    (h : ∃ m ∈ s.mappings, m.owner = nm) : (get_mapping_by_owner s nm).isSome := by
  unfold get_mapping_by_owner
  rw [if_pos hnm]
  exact findOwnerIdx_isSome nm s.mappings 0 h

theorem filter_modifyIdx (p : α → Bool) (f : α → α) (n : ℕ) (l : List α) (a : α)
    (h : l.get? n = some a) :
    ((modifyIdx f n l).filter p).length + (if p a then 1 else 0)
      = (l.filter p).length + (if p (f a) then 1 else 0) := by
  induction l generalizing n with
  | nil => simp at h
  | cons x xs ih =>
    cases n with
    | zero =>
      simp only [List.get?] at h
      cases h
      simp only [modifyIdx, length_filter_cons]
      omega
    | succ m =>
      simp only [List.get?] at h
      simp only [modifyIdx, length_filter_cons]
      have := ih m h
      omega

theorem filter_modifyIdx_of_pres (p : α → Bool) (f : α → α) (h : ∀ a, p (f a) = p a)
    (n : ℕ) (l : List α) :
    ((modifyIdx f n l).filter p).length = (l.filter p).length := by
  induction l generalizing n with
  | nil => cases n <;> rfl
  | cons x xs ih =>
    cases n with
    | zero => simp only [modifyIdx, length_filter_cons, h]
    | succ m => simp only [modifyIdx, length_filter_cons, ih m]

theorem setMappingTarget_count_owner (env : Env) (s : BState) (i : ℕ) (t nm : String) :
    ((setMappingTarget env s i t).mappings.filter (fun m => decide (m.owner = nm))).length
      = (s.mappings.filter (fun m => decide (m.owner = nm))).length := by
  have h1 := count_owner_eq_of_proj _ _ (setMappingTarget_mappings_proj env s i t) nm
  rw [h1, filter_modifyIdx_of_pres]
  intro a
  rfl

theorem get?_of_lt (l : List α) (i : ℕ) (h : i < l.length) : ∃ a, l.get? i = some a := by
  rw [List.get?_eq_get h]
  exact ⟨_, rfl⟩

theorem getD_of_get? (l : List α) (i : ℕ) (a d : α) (h : l.get? i = some a) :
    l.getD i d = a := by
  rw [List.getD_eq_get?, h]
  rfl

theorem setMappingTarget_target_getD (env : Env) (s : BState) (i : ℕ) (t : String)
    (h : i < s.mappings.length) :
    ((setMappingTarget env s i t).mappings.getD i default).target = t := by
  have hm := setMappingTarget_mappings_proj env s i t
  have hlen := setMappingTarget_length env s i t
  have h1 : ((setMappingTarget env s i t).mappings.map projNoOffset).get? i
      = ((modifyIdx (fun m => { m with target := t }) i s.mappings).map projNoOffset).get? i := by
    rw [hm]
  rw [List.get?_map, List.get?_map, get?_modifyIdx_self] at h1
  obtain ⟨m0, hm0⟩ := get?_of_lt s.mappings i h
  obtain ⟨m1, hm1⟩ := get?_of_lt (setMappingTarget env s i t).mappings i (by omega)
  rw [hm0, hm1] at h1
  simp only [Option.map_some'] at h1
  have hcomp := congrArg (fun q :
    String × String × String × Bool × Bool × (Bool × Bool × Bool) × ℚ × Bool => q.2.2.1)
    (Option.some.inj h1)
  simp only [projNoOffset] at hcomp
  rw [getD_of_get? _ _ _ _ hm1]
  exact hcomp

theorem add_mapping_blank_effect (env : Env) (s : BState) (tg : String) (index : ℤ) :
    (add_mapping env s "" tg index).1.mappings.length = s.mappings.length + 1 ∧
    ((add_mapping env s "" tg index).1.mappings.filter
        (fun m => decide (m.owner = ""))).length
      = (s.mappings.filter (fun m => decide (m.owner = ""))).length + 1 := by
  have hn : get_mapping_by_owner s "" = none := by simp [get_mapping_by_owner]
  unfold add_mapping
  rw [hn]
  constructor
  · simp only [setActive_mappings, listMove_length, setMappingTarget_length,
      setMappingSelectedOwner_mappings, modifyIdx_length, List.length_append,
      List.length_cons, List.length_nil]
  · have hget : (s.mappings ++ [({} : Mapping)]).get? s.mappings.length
        = some ({} : Mapping) := by
      rw [List.get?_concat_length]
    have hlen1 : (s.mappings ++ [({} : Mapping)]).length - 1 = s.mappings.length := by
      simp
    have hmod := filter_modifyIdx (fun m => decide (m.owner = ""))
      (fun m => { m with selected_owner := "", owner := "" })
      s.mappings.length (s.mappings ++ [({} : Mapping)]) ({} : Mapping) hget
    simp only [setActive_mappings, filter_listMove, setMappingTarget_count_owner,
      setMappingSelectedOwner_mappings, hlen1]
    have happ : ((s.mappings ++ [({} : Mapping)]).filter
        (fun m => decide (m.owner = ""))).length
        = (s.mappings.filter (fun m => decide (m.owner = ""))).length + 1 := by
      rw [List.filter_append]
      simp
    simp at hmod ⊢
    omega

/-- C10: the owner-bone uniqueness rule is not enforced for the empty owner
name: `get_mapping_by_owner` never matches an empty query (`if name:`), so
`add_mapping` with an empty owner always appends a fresh mapping — whose
owner is the empty string — even when mappings with an empty `owner`
already exist, and two consecutive plain ADD actions accumulate two blank
mappings. -/
theorem C10_empty_owner_always_appends (env : Env) (s : BState) (tg : String) :
    get_mapping_by_owner s "" = none ∧
    (add_mapping env s "" tg (-1)).1.mappings.length = s.mappings.length + 1 ∧
    ((add_mapping env s "" tg (-1)).1.mappings.filter
        (fun m => decide (m.owner = ""))).length
      = (s.mappings.filter (fun m => decide (m.owner = ""))).length + 1 ∧
    ((listActionAdd env (listActionAdd env s)).mappings.filter
        (fun m => decide (m.owner = ""))).length
      = (s.mappings.filter (fun m => decide (m.owner = ""))).length + 2 := by
  refine ⟨by simp [get_mapping_by_owner], (add_mapping_blank_effect env s tg (-1)).1,
    (add_mapping_blank_effect env s tg (-1)).2, ?_⟩
  unfold listActionAdd
  rw [(add_mapping_blank_effect env (add_mapping env s "" "" (-1)).1 "" (-1)).2,
    (add_mapping_blank_effect env s "" (-1)).2]

/-- C1: adding a mapping whose (non-empty, hence actual bone-name) owner
already occurs in the collection never grows the collection: `add_mapping`
finds the first mapping with that owner, overwrites its target in place,
makes its index the active index, and returns that mapping together with
its index. -/
theorem C1_add_existing_owner_updates_in_place (env : Env) (s : BState) (ow tg : String)
    (how : ow ≠ "") (hex : ∃ m ∈ s.mappings, m.owner = ow) :
    ∃ i, get_mapping_by_owner s ow = some i ∧
      (s.mappings.getD i default).owner = ow ∧
      (add_mapping env s ow tg (-1)).1.mappings.length = s.mappings.length ∧
      (add_mapping env s ow tg (-1)).1.active_mapping = (i : ℤ) ∧
      ((add_mapping env s ow tg (-1)).1.mappings.getD i default).target = tg ∧
      (add_mapping env s ow tg (-1)).2
        = ((add_mapping env s ow tg (-1)).1.mappings.getD i default, i) := by
  obtain ⟨i, hi⟩ := Option.isSome_iff_exists.mp (get_mapping_by_owner_isSome s ow how hex)
  obtain ⟨hilen, hiown⟩ := get_mapping_by_owner_spec s ow i hi
  refine ⟨i, hi, hiown, ?_, ?_, ?_, ?_⟩
  · unfold add_mapping
    rw [hi]
    simp only [setActive_mappings, setMappingTarget_length]
  · unfold add_mapping
    rw [hi]
    simp only [setActive_active_mapping]
  · unfold add_mapping
    rw [hi]
    simp only [setActive_mappings]
    exact setMappingTarget_target_getD env s i tg hilen
  · unfold add_mapping
    rw [hi]

/-- C1 witness: on the concrete state `s1ex` (one mapping A→B, active 0),
adding (A, B2) keeps one mapping, updates its target to B2, keeps index 0
active and returns it. -/
theorem C1_add_existing_owner_witness :
    ("A" : String) ≠ "" ∧ (∃ m ∈ s1ex.mappings, m.owner = "A") ∧
    ∃ i, get_mapping_by_owner s1ex "A" = some i ∧
      (s1ex.mappings.getD i default).owner = "A" ∧
      (add_mapping env0 s1ex "A" "B2" (-1)).1.mappings.length = s1ex.mappings.length ∧
      (add_mapping env0 s1ex "A" "B2" (-1)).1.active_mapping = (i : ℤ) ∧
      ((add_mapping env0 s1ex "A" "B2" (-1)).1.mappings.getD i default).target = "B2" ∧
      (add_mapping env0 s1ex "A" "B2" (-1)).2
        = ((add_mapping env0 s1ex "A" "B2" (-1)).1.mappings.getD i default, i) :=
  ⟨by decide, by decide,
    C1_add_existing_owner_updates_in_place env0 s1ex "A" "B2" (by decide) (by decide)⟩

theorem countSelected_zero_iff (l : List Mapping) :
    countSelected l = 0 ↔ ∀ m ∈ l, m.selected = false := by
  unfold countSelected
  rw [Int.natCast_eq_zero, List.length_eq_zero, List.filter_eq_nil]
  constructor
  · intro h m hm
    have := h m hm
    simpa using this
  · intro h m hm
    simp [h m hm]

/-- C6: under the documented `selectedCount` invariant, `get_selection`
returns the singleton active index when no mapping is selected and the
active index is in bounds, the empty list when no mapping is selected and
the active index is out of bounds, and otherwise exactly the indices of the
selected mappings, ordered from highest to lowest (strictly descending). -/
theorem C6_get_selection_spec (s : BState)
    (hinv : s.selected_count = countSelected s.mappings) :
    (s.selected_count = 0 →
      ((0 ≤ s.active_mapping ∧ s.active_mapping < (s.mappings.length : ℤ)) →
        get_selection s = [s.active_mapping.toNat]) ∧
      (¬ (0 ≤ s.active_mapping ∧ s.active_mapping < (s.mappings.length : ℤ)) →
        get_selection s = [])) ∧
    (s.selected_count ≠ 0 →
      (∀ i : ℕ, i ∈ get_selection s ↔
        i < s.mappings.length ∧ (s.mappings.getD i default).selected = true) ∧
      List.Sorted (· > ·) (get_selection s)) := by
  constructor
  · intro hz
    constructor
    · intro hb
      unfold get_selection
      rw [if_pos ⟨hz, hb.1, hb.2⟩]
    · intro hb
      unfold get_selection
      rw [if_neg (by intro hc; exact hb ⟨hc.2.1, hc.2.2⟩)]
      apply List.filter_eq_nil.mpr
      intro i hi
      have hilen : i < s.mappings.length := by
        have := List.mem_reverse.mp hi
        exact List.mem_range.mp this
      have hnone := (countSelected_zero_iff s.mappings).mp (by omega)
      have hmem : s.mappings.getD i default ∈ s.mappings := by
        obtain ⟨a, ha⟩ := get?_of_lt s.mappings i hilen
        rw [getD_of_get? _ _ _ _ ha]
        exact List.get?_mem ha
      intro hc
      rw [hnone _ hmem] at hc
      exact Bool.false_ne_true hc
  · intro hnz
    have hcond : ¬ (s.selected_count = 0 ∧ 0 ≤ s.active_mapping ∧
        s.active_mapping < (s.mappings.length : ℤ)) := by
      intro hc
      exact hnz hc.1
    constructor
    · intro i
      unfold get_selection
      rw [if_neg hcond]
      rw [List.mem_filter, List.mem_reverse, List.mem_range]
    · unfold get_selection
      rw [if_neg hcond]
      apply List.Pairwise.filter
      have h1 := List.pairwise_lt_range s.mappings.length
      have h2 := List.pairwise_reverse.mpr h1
      exact h2.imp (fun hab => hab)

/-- C6 witness: on `s8ex` (count 2, indices 1 and 2 selected) the invariant
holds and the selection is the descending list [2, 1]; on `s7ex` (count 0,
active −1) the selection is empty. -/
theorem C6_get_selection_witness :
    s8ex.selected_count = countSelected s8ex.mappings ∧
    (2 ∈ get_selection s8ex ↔
      2 < s8ex.mappings.length ∧ (s8ex.mappings.getD 2 default).selected = true) ∧
    List.Sorted (· > ·) (get_selection s8ex) := by
  have h := C6_get_selection_spec s8ex (by decide)
  have h2 := h.2 (by decide)
  exact ⟨by decide, h2.1 2, h2.2⟩

theorem eraseAt_append_of_lt (i : ℕ) (x : List α) (a : α) (h : i < x.length) :
    eraseAt i (x ++ [a]) = eraseAt i x ++ [a] := by
  induction x generalizing i with
  | nil => simp at h
  | cons y ys ih =>
    cases i with
    | zero => rfl
    | succ m =>
      simp only [List.cons_append, eraseAt, List.cons.injEq, true_and]
      exact ih m (by simpa using h)

theorem eraseAt_append_last (x : List α) (a : α) : eraseAt x.length (x ++ [a]) = x := by
  induction x with
  | nil => rfl
  | cons y ys ih => simpa [eraseAt] using ih

theorem getD_append_of_lt (x : List α) (y : List α) (i : ℕ) (d : α) (h : i < x.length) :
    (x ++ y).getD i d = x.getD i d := by
  rw [List.getD_eq_get?, List.getD_eq_get?, List.get?_append h]

theorem foldl_eraseAt_append_last (x : List α) (a : α) (idxs : List ℕ)
    (hd : List.Pairwise (· > ·) idxs) (hb : ∀ i ∈ idxs, i < x.length) :
    idxs.foldl (fun acc i => eraseAt i acc) (x ++ [a])
      = (idxs.foldl (fun acc i => eraseAt i acc) x) ++ [a] := by
  induction idxs generalizing x with
  | nil => rfl
  | cons i is ih =>
    have hi : i < x.length := hb i (List.mem_cons_self i is)
    rw [List.foldl_cons, List.foldl_cons, eraseAt_append_of_lt i x a hi]
    refine ih _ (List.Pairwise.of_cons hd) ?_
    intro j hj
    have hji : j < i := (List.pairwise_cons.mp hd).1 j hj
    rw [eraseAt_length i x hi]
    omega

/-- Removing, from highest index to lowest, exactly the positions whose
element satisfies `p` leaves the elements not satisfying `p`. -/
theorem foldl_eraseAt_filter (p : α → Bool) (d : α) (l : List α) :
    (((List.range l.length).reverse.filter (fun i => p (l.getD i d))).foldl
      (fun acc i => eraseAt i acc) l) = l.filter (fun a => !p a) := by
  induction l using List.reverseRecOn with
  | nil => rfl
  | append_singleton x a ih =>
    have hlen : (x ++ [a]).length = x.length + 1 := by simp
    have hrange : (List.range (x ++ [a]).length).reverse
        = x.length :: (List.range x.length).reverse := by
      rw [hlen, List.range_succ]
      simp
    have hgetD : ∀ i < x.length, (x ++ [a]).getD i d = x.getD i d := fun i hi =>
      getD_append_of_lt x [a] i d hi
    have hgetlast : (x ++ [a]).getD x.length d = a := by
      rw [List.getD_eq_get?, List.get?_concat_length]
      rfl
    have hfiltereq : (List.range x.length).reverse.filter
          (fun i => p ((x ++ [a]).getD i d))
        = (List.range x.length).reverse.filter (fun i => p (x.getD i d)) := by
      apply List.filter_congr
      intro i hi
      have hilt : i < x.length := List.mem_range.mp (List.mem_reverse.mp hi)
      rw [hgetD i hilt]
    have hpair : List.Pairwise (· > ·)
        ((List.range x.length).reverse.filter (fun i => p (x.getD i d))) := by
      apply List.Pairwise.filter
      exact (List.pairwise_reverse.mpr (List.pairwise_lt_range x.length)).imp (fun h => h)
    have hbound : ∀ i ∈ (List.range x.length).reverse.filter
        (fun i => p (x.getD i d)), i < x.length := by
      intro i hi
      exact List.mem_range.mp (List.mem_reverse.mp (List.mem_filter.mp hi).1)
    rw [hrange]
    by_cases hpa : p a
    · rw [List.filter_cons_of_pos (by simpa [hgetlast] using hpa), List.foldl_cons,
        eraseAt_append_last, hfiltereq, ih, List.filter_append]
      simp [hpa]
    · rw [List.filter_cons_of_neg (by simpa [hgetlast] using hpa), hfiltereq,
        foldl_eraseAt_append_last x a _ hpair hbound, ih, List.filter_append]
      simp [hpa]

theorem stackOf_congr (s t : BState) (b : String) (h : s.conStacks = t.conStacks) :
    stackOf s b = stackOf t b := by
  unfold stackOf
  rw [h]

theorem getOwnerPB_congr (env : Env) (s t : BState) (m : Mapping)
    (h : s.ownerObj = t.ownerObj) : getOwnerPB env s m = getOwnerPB env t m := by
  unfold getOwnerPB
  rw [h]

theorem getD_eraseAt_of_lt (l : List α) (i j : ℕ) (d : α) (h : j < i) :
    (eraseAt i l).getD j d = l.getD j d := by
  induction l generalizing i j with
  | nil => cases i <;> rfl
  | cons a as ih =>
    cases i with
    | zero => omega
    | succ n =>
      cases j with
      | zero => rfl
      | succ k =>
        simp only [eraseAt, List.getD_cons_succ]
        exact ih n k (by omega)

theorem get?_eq_some_getD (l : List α) (i : ℕ) (d : α) (h : i < l.length) :
    l.get? i = some (l.getD i d) := by
  obtain ⟨a, ha⟩ := get?_of_lt l i h
  rw [ha, getD_of_get? l i a d ha]

theorem clearConstraints_stack (env : Env) (t : BState) (m : Mapping) (b : String) :
    ∀ c ∈ stackOf (clearConstraints env t m) b,
      c ∈ stackOf t b ∧ (getOwnerPB env t m = some b → c.tag = false) := by
  unfold clearConstraints
  cases ho : getOwnerPB env t m with
  | none => exact fun c hc => ⟨hc, by simp⟩
  | some ob =>
    intro c hc
    rw [stackOf_setStack] at hc
    by_cases hbb : b = ob
    · subst hbb
      rw [if_pos rfl] at hc
      have := List.mem_filter.mp hc
      refine ⟨this.1, fun hsome => ?_⟩
      simpa using this.2
    · rw [if_neg hbb] at hc
      refine ⟨hc, fun hsome => ?_⟩
      exact absurd (Option.some.inj hsome) (fun he => hbb he.symm)

theorem removeStep_stack_tag_free (env : Env) (t : BState) (i : ℕ) (b : String)
    (h : ∀ c ∈ stackOf t b, c.tag = false) :
    ∀ c ∈ stackOf (removeStep env t i) b, c.tag = false := by
  unfold removeStep
  cases t.mappings.get? i with
  | none => exact h
  | some m =>
    intro c hc
    have hs : stackOf { clearConstraints env t m with
        mappings := eraseAt i (clearConstraints env t m).mappings } b
        = stackOf (clearConstraints env t m) b := stackOf_congr _ _ b rfl
    rw [hs] at hc
    exact h c (clearConstraints_stack env t m b c hc).1

theorem foldl_removeStep_tag_free (env : Env) (idxs : List ℕ) (s : BState) (b : String)
    (h : ∀ c ∈ stackOf s b, c.tag = false) :
    ∀ c ∈ stackOf (idxs.foldl (removeStep env) s) b, c.tag = false := by
  induction idxs generalizing s with
  | nil => exact h
  | cons i is ih =>
    rw [List.foldl_cons]
    exact ih (removeStep env s i) (removeStep_stack_tag_free env s i b h)

theorem foldl_removeStep_mappings (env : Env) (idxs : List ℕ) (s : BState) :
    (idxs.foldl (removeStep env) s).mappings
      = idxs.foldl (fun acc i => eraseAt i acc) s.mappings := by
  induction idxs generalizing s with
  | nil => rfl
  | cons i is ih =>
    rw [List.foldl_cons, List.foldl_cons, ih, removeStep_mappings]

theorem foldl_removeStep_active (env : Env) (idxs : List ℕ) (s : BState) :
    (idxs.foldl (removeStep env) s).active_mapping = s.active_mapping :=
  foldl_preserves _ (fun t => t.active_mapping)
    (fun t i => removeStep_active_mapping env t i) idxs s

theorem foldl_removeStep_ownerObj (env : Env) (idxs : List ℕ) (s : BState) :
    (idxs.foldl (removeStep env) s).ownerObj = s.ownerObj :=
  foldl_preserves _ (fun t => t.ownerObj)
    (fun t i => removeStep_ownerObj env t i) idxs s

theorem removeStep_clears_self (env : Env) (s : BState) (i : ℕ) (ob : String)
    (hlen : i < s.mappings.length)
    (hob : getOwnerPB env s (s.mappings.getD i default) = some ob) :
    ∀ c ∈ stackOf (removeStep env s i) ob, c.tag = false := by
  unfold removeStep
  rw [get?_eq_some_getD s.mappings i default hlen]
  intro c hc
  have hs : stackOf { clearConstraints env s (s.mappings.getD i default) with
      mappings := eraseAt i (clearConstraints env s (s.mappings.getD i default)).mappings } ob
      = stackOf (clearConstraints env s (s.mappings.getD i default)) ob :=
    stackOf_congr _ _ ob rfl
  rw [hs] at hc
  exact (clearConstraints_stack env s (s.mappings.getD i default) ob c hc).2 hob

theorem foldl_removeStep_clears (env : Env) (idxs : List ℕ) (s : BState)
    (hd : List.Pairwise (· > ·) idxs) (hb : ∀ i ∈ idxs, i < s.mappings.length) :
    ∀ i ∈ idxs, ∀ ob, getOwnerPB env s (s.mappings.getD i default) = some ob →
      ∀ c ∈ stackOf (idxs.foldl (removeStep env) s) ob, c.tag = false := by
  induction idxs generalizing s with
  | nil => intro i hi; simp at hi
  | cons i is ih =>
    intro j hj ob hob c hc
    rw [List.foldl_cons] at hc
    have hilen : i < s.mappings.length := hb i (List.mem_cons_self i is)
    rcases List.mem_cons.mp hj with rfl | hjs
    · exact foldl_removeStep_tag_free env is (removeStep env s j) ob
        (removeStep_clears_self env s j ob hilen hob) c hc
    · have hji : j < i := (List.pairwise_cons.mp hd).1 j hjs
      have hgd : (removeStep env s i).mappings.getD j default
          = s.mappings.getD j default := by
        rw [removeStep_mappings]
        exact getD_eraseAt_of_lt s.mappings i j default hji
      have hob' : getOwnerPB env (removeStep env s i)
          ((removeStep env s i).mappings.getD j default) = some ob := by
        rw [hgd, getOwnerPB_congr env _ s _ (removeStep_ownerObj env s i)]
        exact hob
      have hblen : ∀ k ∈ is, k < (removeStep env s i).mappings.length := by
        intro k hk
        have hki : k < i := (List.pairwise_cons.mp hd).1 k hk
        rw [removeStep_mappings, eraseAt_length i s.mappings hilen]
        omega
      exact ih (removeStep env s i) (List.Pairwise.of_cons hd) hblen j hjs ob hob' c hc

theorem get_selection_sorted (s : BState) : List.Sorted (· > ·) (get_selection s) := by
  unfold get_selection
  split
  · simp
  · apply List.Pairwise.filter
    exact (List.pairwise_reverse.mpr (List.pairwise_lt_range s.mappings.length)).imp
      (fun h => h)

theorem get_selection_bounds (s : BState) : ∀ i ∈ get_selection s, i < s.mappings.length := by
  unfold get_selection
  split
  · next hcond =>
    intro i hi
    have := List.mem_singleton.mp hi
    subst this
    omega
  · intro i hi
    exact List.mem_range.mp (List.mem_reverse.mp (List.mem_filter.mp hi).1)

theorem remove_mapping_mappings (env : Env) (s : BState) :
    (remove_mapping env s).mappings
      = (get_selection s).foldl (fun acc i => eraseAt i acc) s.mappings := by
  unfold remove_mapping
  simp only [setSelectedCount_mappings, setActive_mappings]
  exact foldl_removeStep_mappings env _ s

theorem remove_mapping_selected_count (env : Env) (s : BState) :
    (remove_mapping env s).selected_count = 0 := by
  unfold remove_mapping
  simp

theorem remove_mapping_active (env : Env) (s : BState) :
    (remove_mapping env s).active_mapping
      = min s.active_mapping (max 0 (((remove_mapping env s).mappings.length : ℤ) - 1)) := by
  unfold remove_mapping
  simp only [setSelectedCount_active_mapping, setActive_active_mapping,
    setSelectedCount_mappings, setActive_mappings, foldl_removeStep_active,
    foldl_removeStep_mappings]

/-- C7 (amended): `remove_mapping` visits the working-selection indices in
strictly descending order, clearing each visited mapping's tagged
constraints and erasing the mapping (with a nonempty selection the
surviving mappings are exactly the unselected ones); afterwards the active
index is set to `min(active, max(0, len-1))` — in bounds whenever the
previous active index was nonnegative and the collection stays nonempty,
but a negative active index is left unchanged — and `selected_count` is
reset to 0. -/
theorem C7_remove_selection (env : Env) (s : BState)
    (hinv : s.selected_count = countSelected s.mappings) :
    List.Sorted (· > ·) (get_selection s) ∧
    (s.selected_count ≠ 0 →
      (remove_mapping env s).mappings = s.mappings.filter (fun m => !m.selected)) ∧
    (∀ i ∈ get_selection s, ∀ ob,
      getOwnerPB env s (s.mappings.getD i default) = some ob →
      ∀ c ∈ stackOf (remove_mapping env s) ob, c.tag = false) ∧
    (remove_mapping env s).active_mapping
      = min s.active_mapping (max 0 (((remove_mapping env s).mappings.length : ℤ) - 1)) ∧
    (remove_mapping env s).selected_count = 0 := by
  refine ⟨get_selection_sorted s, ?_, ?_, remove_mapping_active env s,
    remove_mapping_selected_count env s⟩
  · intro hnz
    rw [remove_mapping_mappings]
    unfold get_selection
    rw [if_neg (fun hc => hnz hc.1)]
    exact foldl_eraseAt_filter (fun m => m.selected) default s.mappings
  · intro i hi ob hob c hc
    have hstack : stackOf (remove_mapping env s) ob
        = stackOf ((get_selection s).foldl (removeStep env) s) ob := by
      unfold remove_mapping
      apply stackOf_congr
      simp
    rw [hstack] at hc
    exact foldl_removeStep_clears env (get_selection s) s (get_selection_sorted s)
      (get_selection_bounds s) i hi ob hob c hc

/-- C7 witness: on `s8ex` (mappings x, y, z with y and z selected,
count 2) removal keeps exactly the unselected mapping and resets the
count. -/
theorem C7_remove_selection_witness :
    s8ex.selected_count = countSelected s8ex.mappings ∧
    (remove_mapping env0 s8ex).mappings = s8ex.mappings.filter (fun m => !m.selected) ∧
    (remove_mapping env0 s8ex).selected_count = 0 :=
  ⟨by decide, (C7_remove_selection env0 s8ex (by decide)).2.1 (by decide),
    (C7_remove_selection env0 s8ex (by decide)).2.2.2.2⟩

/-- C8: with a multi-selection, the UP action walks the selected indices
(`range(1, len)`) in ascending order and swaps each with its upper
neighbour only when that neighbour is not itself selected; for a collection
with indices 1 and 2 selected and index 0 unselected, the selected block
moves up as a unit without the selected rows leapfrogging each other, and
the mapping originally at index 0 ends up immediately after the block. -/
theorem C8_up_moves_selected_block (env : Env) (s : BState) (m0 m1 m2 : Mapping)
    (hm : s.mappings = [m0, m1, m2])
    (h0 : m0.selected = false) (h1 : m1.selected = true) (h2 : m2.selected = true)
    (hc : s.selected_count ≠ 0) :
    (listActionUp env s).mappings = [m1, m2, m0] := by
  unfold listActionUp
  rw [if_neg hc]
  have hidx : (List.range' 1 (s.mappings.length - 1)).filter
      (fun i => (s.mappings.getD i default).selected) = [1, 2] := by
    rw [hm]
    simp [List.range', h1, h2]
  rw [hidx]
  simp only [List.foldl_cons, List.foldl_nil]
  simp [hm, h0, h1, h2, listMove, eraseAt, insertAt, List.get?]

/-- C8 witness: the concrete state `s8ex` (x unselected, y and z selected)
reorders to [y, z, x] under UP. -/
theorem C8_up_moves_selected_block_witness :
    (listActionUp env0 s8ex).mappings = [mSel "y" true, mSel "z" true, mSel "x" false] :=
  C8_up_moves_selected_block env0 s8ex (mSel "x" false) (mSel "y" true) (mSel "z" true)
    rfl rfl rfl rfl (by decide)

theorem setSelected_inv (env : Env) (s : BState) (i : ℕ) (b : Bool) :
    (setSelected env s i b).selected_count
      = countSelected (setSelected env s i b).mappings := by
  rw [setSelected_selected_count, setSelected_mappings]

theorem foldl_setSelected_get? (env : Env) (b : Bool) (n : ℕ) (s : BState) (j : ℕ) :
    ((List.range n).foldl (fun t i => setSelected env t i b) s).mappings.get? j
      = if j < n then (s.mappings.get? j).map (fun m => { m with selected := b })
        else s.mappings.get? j := by
  induction n with
  | zero => simp
  | succ k ih =>
    rw [List.range_succ, List.foldl_append, List.foldl_cons, List.foldl_nil,
      setSelected_mappings]
    by_cases hj : j = k
    · subst hj
      rw [get?_modifyIdx_self, ih]
      rw [if_neg (by omega), if_pos (by omega)]
    · rw [get?_modifyIdx_ne _ _ _ _ hj, ih]
      by_cases hlt : j < k
      · rw [if_pos hlt, if_pos (by omega)]
      · rw [if_neg hlt, if_neg (by omega)]

theorem foldl_setSelected_length (env : Env) (b : Bool) (l : List ℕ) (s : BState) :
    ((l.foldl (fun t i => setSelected env t i b) s).mappings).length
      = s.mappings.length :=
  foldl_preserves _ (fun t => t.mappings.length)
    (fun t i => by simp only; rw [setSelected_mappings, modifyIdx_length]) l s

theorem countSelected_eq_length (l : List Mapping) (h : ∀ m ∈ l, m.selected = true) :
    countSelected l = (l.length : ℤ) := by
  unfold countSelected
  congr 1
  rw [List.filter_eq_self.mpr (fun a ha => by simp [h a ha])]

theorem foldl_setSelected_sel (env : Env) (b : Bool) (s : BState) :
    ∀ m ∈ ((List.range s.mappings.length).foldl
      (fun t i => setSelected env t i b) s).mappings, m.selected = b := by
  intro m hm
  obtain ⟨j, hj⟩ := List.mem_iff_get?.mp hm
  have hjlen : j < s.mappings.length := by
    have h1 : j < ((List.range s.mappings.length).foldl
        (fun t i => setSelected env t i b) s).mappings.length := by
      by_contra hc
      push_neg at hc
      rw [List.get?_eq_none.mpr hc] at hj
      exact Option.noConfusion hj
    rwa [foldl_setSelected_length] at h1
  rw [foldl_setSelected_get? env b s.mappings.length s j, if_pos hjlen] at hj
  obtain ⟨m0, hm0⟩ := get?_of_lt s.mappings j hjlen
  rw [hm0] at hj
  have := Option.some.inj hj
  rw [← this]

theorem selectActionAll_inv (env : Env) (s : BState) :
    (selectActionAll env s).selected_count
      = countSelected (selectActionAll env s).mappings := by
  unfold selectActionAll
  rw [setSelectedCount_selected_count, setSelectedCount_mappings]
  exact (countSelected_eq_length _ (foldl_setSelected_sel env true s)).symm

theorem selectActionInverse_inv (env : Env) (s : BState) :
    (selectActionInverse env s).selected_count
      = countSelected (selectActionInverse env s).mappings := by
  unfold selectActionInverse
  rw [setSelectedCount_selected_count, setSelectedCount_mappings]

theorem selectActionNone_inv (env : Env) (s : BState) :
    (selectActionNone env s).selected_count
      = countSelected (selectActionNone env s).mappings := by
  unfold selectActionNone
  rw [setSelectedCount_selected_count, setSelectedCount_mappings]
  refine ((countSelected_zero_iff _).mpr ?_).symm
  intro m hm
  exact foldl_setSelected_sel env false s m hm

theorem mem_of_mem_eraseAt (i : ℕ) (l : List α) (a : α) (h : a ∈ eraseAt i l) : a ∈ l := by
  induction l generalizing i with
  | nil => cases i <;> simp [eraseAt] at h
  | cons x xs ih =>
    cases i with
    | zero => exact List.mem_cons_of_mem x h
    | succ n =>
      rcases List.mem_cons.mp h with rfl | h2
      · exact List.mem_cons_self _ _
      · exact List.mem_cons_of_mem x (ih n h2)

theorem mem_foldl_eraseAt (idxs : List ℕ) (l : List α) (a : α)
    (h : a ∈ idxs.foldl (fun acc i => eraseAt i acc) l) : a ∈ l := by
  induction idxs generalizing l with
  | nil => exact h
  | cons i is ih => exact mem_of_mem_eraseAt i l a (ih (eraseAt i l) h)

theorem remove_mapping_inv (env : Env) (s : BState)
    (hinv : s.selected_count = countSelected s.mappings) :
    (remove_mapping env s).selected_count
      = countSelected (remove_mapping env s).mappings := by
  rw [remove_mapping_selected_count]
  refine ((countSelected_zero_iff _).mpr ?_).symm
  by_cases hz : s.selected_count = 0
  · have hall := (countSelected_zero_iff s.mappings).mp (by omega)
    rw [remove_mapping_mappings]
    intro m hm
    exact hall m (mem_foldl_eraseAt _ _ _ hm)
  · rw [remove_mapping_mappings]
    unfold get_selection
    rw [if_neg (fun hc => hz hc.1)]
    rw [foldl_eraseAt_filter (fun m => m.selected) default s.mappings]
    intro m hm
    have := List.mem_filter.mp hm
    simpa using this.2

theorem childStep_inv (env : Env) (t : BState) (i : ℕ)
    (hinv : t.selected_count = countSelected t.mappings) :
    (childStep env t i).1.selected_count
      = countSelected (childStep env t i).1.mappings := by
  unfold childStep
  split
  · exact hinv
  next m heq =>
    have ht1 : (if m.selected then setSelected env t i false else t).selected_count
        = countSelected (if m.selected then setSelected env t i false else t).mappings := by
      split
      · exact setSelected_inv env t i false
      · exact hinv
    dsimp only
    split
    · split
      · split
        · exact setSelected_inv env _ _ true
        · exact ht1
      · exact ht1
    · exact ht1

theorem childLoop_inv (env : Env) (idxs : List ℕ) (s : BState)
    (hinv : s.selected_count = countSelected s.mappings) :
    (childLoop env idxs s).selected_count
      = countSelected (childLoop env idxs s).mappings := by
  induction idxs generalizing s with
  | nil => exact hinv
  | cons i is ih =>
    unfold childLoop
    dsimp only
    split
    · exact ih _ (childStep_inv env s i hinv)
    · exact childStep_inv env s i hinv

/-- C5: after every selection-mutating operation — toggling one mapping's
`selected` flag, select-all, invert, clear (any `BAC_OT_SelectAction`
action string), the child-propagation operator (which deselects each source
row and selects each newly created row), and removal of the selection —
the cached `selected_count` equals the number of mappings whose `selected`
flag is true. -/
theorem C5_selected_count_invariant (env : Env) (s : BState) (i : ℕ) (b : Bool)
    (a : String) (hinv : s.selected_count = countSelected s.mappings) :
    (setSelected env s i b).selected_count
        = countSelected (setSelected env s i b).mappings ∧
    (selectAction env s a).selected_count
        = countSelected (selectAction env s a).mappings ∧
    (childMappingExec env s).selected_count
        = countSelected (childMappingExec env s).mappings ∧
    (remove_mapping env s).selected_count
        = countSelected (remove_mapping env s).mappings := by
  refine ⟨setSelected_inv env s i b, ?_, ?_, remove_mapping_inv env s hinv⟩
  · unfold selectAction
    split
    · exact selectActionAll_inv env s
    · split
      · exact selectActionInverse_inv env s
      · exact selectActionNone_inv env s
  · exact childLoop_inv env (get_selection s) s hinv

/-- C5 witness: on `s1ex` (one unselected mapping, count 0) the invariant
holds after toggling index 0 on, after the ALL action, after child
propagation and after removal. -/
theorem C5_selected_count_invariant_witness :
    s1ex.selected_count = countSelected s1ex.mappings ∧
    (setSelected env0 s1ex 0 true).selected_count
      = countSelected (setSelected env0 s1ex 0 true).mappings ∧
    (selectAction env0 s1ex "ALL").selected_count
      = countSelected (selectAction env0 s1ex "ALL").mappings :=
  ⟨by decide, (C5_selected_count_invariant env0 s1ex 0 true "ALL" (by decide)).1,
    (C5_selected_count_invariant env0 s1ex 0 true "ALL" (by decide)).2.1⟩

/-- C9: with `ortho_offset` set, `_on_target` stores
`round(euler[i]/step) * step` with `step = π/2` for each Euler component
(lines 122–126) — the nearest integer multiple of π/2.  Whenever the
computable bound-based evaluation `snapMultiple` returns a multiple it is
the true real-valued round, and the stored value `k·(π/2)` is at least as
close to the raw component as any other multiple of π/2.  For the raw Euler
(0.1, 1.55, −1.6) the snapped multiples are (0, 1, −1): the stored offset
is (0, π/2, −π/2), each component within 1e-6 (here exactly equal) of the
claimed value. -/
theorem C9_ortho_snap (q : ℚ) (k : ℤ) (h : snapMultiple q = some k) :
    round ((q : ℝ) / (Real.pi / 2)) = k ∧
    (∀ m : ℤ, |(q : ℝ) - k * (Real.pi / 2)| ≤ |(q : ℝ) - m * (Real.pi / 2)|) ∧
    orthoSnapEuler (1/10, 31/20, -8/5) = some (0, 1, -1) ∧
    |((0 : ℤ) : ℝ) * (Real.pi / 2) - 0| ≤ 1/1000000 ∧
    |((1 : ℤ) : ℝ) * (Real.pi / 2) - Real.pi / 2| ≤ 1/1000000 ∧
    |((-1 : ℤ) : ℝ) * (Real.pi / 2) - (-(Real.pi / 2))| ≤ 1/1000000 := by
  have hk := snapMultiple_round q k h
  have hconc : orthoSnapEuler (1/10, 31/20, -8/5) = some (0, 1, -1) := by
    unfold orthoSnapEuler snapMultiple
    norm_num [PI_LO, PI_HI, round_eq]
  refine ⟨hk, ?_, hconc, by norm_num, by norm_num, by norm_num⟩
  intro m
  have hs : (0 : ℝ) < Real.pi / 2 := by positivity
  have := nearest_multiple (q : ℝ) (Real.pi / 2) hs m
  rwa [hk] at this

/-- C9 witness: the middle raw component 1.55 snaps to the multiple 1,
whose stored value is π/2. -/
theorem C9_ortho_snap_witness :
    snapMultiple (31/20) = some 1 ∧
    (round (((31/20 : ℚ) : ℝ) / (Real.pi / 2)) = (1 : ℤ) ∧
      (∀ m : ℤ, |((31/20 : ℚ) : ℝ) - (1 : ℤ) * (Real.pi / 2)|
        ≤ |((31/20 : ℚ) : ℝ) - m * (Real.pi / 2)|) ∧
      orthoSnapEuler (1/10, 31/20, -8/5) = some (0, 1, -1) ∧
      |((0 : ℤ) : ℝ) * (Real.pi / 2) - 0| ≤ 1/1000000 ∧
      |((1 : ℤ) : ℝ) * (Real.pi / 2) - Real.pi / 2| ≤ 1/1000000 ∧
      |((-1 : ℤ) : ℝ) * (Real.pi / 2) - (-(Real.pi / 2))| ≤ 1/1000000) :=
  ⟨by unfold snapMultiple; norm_num [PI_LO, PI_HI, round_eq],
    C9_ortho_snap (31/20) 1 (by unfold snapMultiple; norm_num [PI_LO, PI_HI, round_eq])⟩

theorem filter_newCon (P : Constraint → Bool) (hP : ∀ ctype nm, P (mkCon ctype nm) = false)
    (st : List Constraint) (ctype nm : String) :
    (newCon st ctype nm).filter P = st.filter P := by
  unfold newCon
  split
  · rfl
  · rw [List.filter_append]
    simp [hP]

theorem filter_updNamed_of_excl (P : Constraint → Bool) (st : List Constraint) (nm : String)
    (f : Constraint → Constraint) (hf : ∀ c, c.name = nm → P (f c) = false ∧ P c = false) :
    (updNamed st nm f).filter P = st.filter P := by
  induction st with
  | nil => rfl
  | cons c cs ih =>
    unfold updNamed
    by_cases hc : c.name = nm
    · rw [if_pos hc]
      rw [List.filter_cons, List.filter_cons, (hf c hc).1, (hf c hc).2]
      simp
    · rw [if_neg hc, List.filter_cons, List.filter_cons, ih]

theorem filter_rmNamedTagged (P : Constraint → Bool) (hP : ∀ c, c.tag = true → P c = false)
    (st : List Constraint) (nm : String) :
    (rmNamedTagged st nm).filter P = st.filter P := by
  induction st with
  | nil => rfl
  | cons c cs ih =>
    unfold rmNamedTagged
    by_cases hc : c.name = nm
    · rw [if_pos hc]
      by_cases ht : c.tag
      · rw [if_pos ht, List.filter_cons, hP c ht]
        simp
      · rw [if_neg ht]
    · rw [if_neg hc, List.filter_cons, List.filter_cons, ih]

/-- Foreign non-reserved constraints: neither tagged nor carrying one of
the four reserved names. -/
theorem filter_updNamed_reserved (st : List Constraint) (nm : String)
    (f : Constraint → Constraint) (hf : ∀ c, (f c).name = c.name ∧ (f c).tag = c.tag)
    (hnm : RESERVED.contains nm = true) :
    (updNamed st nm f).filter (fun c => !c.tag && !(RESERVED.contains c.name))
      = st.filter (fun c => !c.tag && !(RESERVED.contains c.name)) := by
  apply filter_updNamed_of_excl
  intro c hc
  have hcon : RESERVED.contains c.name = true := by
    rw [hc]
    exact hnm
  constructor
  · show (!(f c).tag && !(RESERVED.contains (f c).name)) = false
    rw [(hf c).1, (hf c).2, hcon]
    simp
  · show (!c.tag && !(RESERVED.contains c.name)) = false
    rw [hcon]
    simp

theorem filter_upd_roll_cfg (st : List Constraint) :
    (updNamed st "BAC_ROT_ROLL"
        (fun c => { c with map_to := "ROTATION", owner_space := "CUSTOM" })).filter
      (fun c => !c.tag && !(RESERVED.contains c.name))
      = st.filter (fun c => !c.tag && !(RESERVED.contains c.name)) :=
  filter_updNamed_reserved st _ _ (fun _ => ⟨rfl, rfl⟩) rfl

theorem filter_upd_ik_cfg (st : List Constraint) :
    (updNamed st "BAC_IK"
        (fun c => { c with chain_count := 2, use_tail := false })).filter
      (fun c => !c.tag && !(RESERVED.contains c.name))
      = st.filter (fun c => !c.tag && !(RESERVED.contains c.name)) :=
  filter_updNamed_reserved st _ _ (fun _ => ⟨rfl, rfl⟩) rfl

theorem filter_upd_rot_set (st : List Constraint) (tgt : Option String) (sub : String)
    (en : Bool) :
    (updNamed st "BAC_ROT_COPY"
        (fun c => { c with targetObj := tgt, subtarget := sub, enabled := en })).filter
      (fun c => !c.tag && !(RESERVED.contains c.name))
      = st.filter (fun c => !c.tag && !(RESERVED.contains c.name)) :=
  filter_updNamed_reserved st _ _ (fun _ => ⟨rfl, rfl⟩) rfl

theorem filter_upd_roll_set (st : List Constraint) (off : ℚ × ℚ × ℚ) (tgt : Option String)
    (sub : String) (en : Bool) :
    (updNamed st "BAC_ROT_ROLL"
        (fun c => { c with to_min_rot := off, targetObj := tgt, space_object := tgt,
                           subtarget := sub, space_subtarget := sub, enabled := en })).filter
      (fun c => !c.tag && !(RESERVED.contains c.name))
      = st.filter (fun c => !c.tag && !(RESERVED.contains c.name)) :=
  filter_updNamed_reserved st _ _ (fun _ => ⟨rfl, rfl⟩) rfl

theorem filter_upd_loc_set (st : List Constraint) (ax : Bool × Bool × Bool)
    (tgt : Option String) (sub : String) (en : Bool) :
    (updNamed st "BAC_LOC_COPY"
        (fun c => { c with use_axis := ax, targetObj := tgt, subtarget := sub,
                           enabled := en })).filter
      (fun c => !c.tag && !(RESERVED.contains c.name))
      = st.filter (fun c => !c.tag && !(RESERVED.contains c.name)) :=
  filter_updNamed_reserved st _ _ (fun _ => ⟨rfl, rfl⟩) rfl

theorem filter_upd_ik_set (st : List Constraint) (inf : ℚ) (tgt : Option String)
    (sub : String) (en : Bool) :
    (updNamed st "BAC_IK"
        (fun c => { c with influence := inf, targetObj := tgt, subtarget := sub,
                           enabled := en })).filter
      (fun c => !c.tag && !(RESERVED.contains c.name))
      = st.filter (fun c => !c.tag && !(RESERVED.contains c.name)) :=
  filter_updNamed_reserved st _ _ (fun _ => ⟨rfl, rfl⟩) rfl

/-- C4 (amended): `_apply` never disturbs a constraint that carries neither
the addon tag nor one of the four reserved names: the sublist of such
constraints on every bone — values, order and presence — is exactly the
same before and after synchronization (for any toggle settings, validity or
preview state).  (The unamended claim fails for untagged constraints that
happen to carry a reserved name, see the counterexample.) -/
theorem C4_apply_preserves_nonreserved_foreign (env : Env) (s : BState) (i : ℕ) (b : String) :
    (stackOf (applyMapping env s i) b).filter
        (fun c => !c.tag && !(RESERVED.contains c.name))
      = (stackOf s b).filter (fun c => !c.tag && !(RESERVED.contains c.name)) := by
  have hPmk : ∀ ctype nm, (fun c : Constraint => !c.tag && !(RESERVED.contains c.name))
      (mkCon ctype nm) = false := by
    intro ctype nm
    rfl
  have hPtag : ∀ c : Constraint, c.tag = true →
      (fun c : Constraint => !c.tag && !(RESERVED.contains c.name)) c = false := by
    intro c ht
    simp [ht]
  unfold applyMapping
  split
  · rfl
  · split
    · rw [stackOf_setStack]
      split
      · next hb =>
        subst hb
        simp only [apply_ite
            (List.filter (fun c : Constraint => !c.tag && !(RESERVED.contains c.name))),
          filter_newCon (fun c : Constraint => !c.tag && !(RESERVED.contains c.name)) hPmk,
          filter_rmNamedTagged (fun c : Constraint => !c.tag && !(RESERVED.contains c.name))
            hPtag, filter_upd_roll_cfg,
          filter_upd_ik_cfg, filter_upd_rot_set, filter_upd_roll_set, filter_upd_loc_set,
          filter_upd_ik_set, ite_self]
      · rfl
    · rfl

theorem NT_updNamed (st : List Constraint) (nm : String) (f : Constraint → Constraint)
    (hf : ∀ c, (f c).name = c.name ∧ (f c).tag = c.tag) :
    (updNamed st nm f).map (fun c => (c.name, c.tag)) = st.map (fun c => (c.name, c.tag)) := by
  induction st with
  | nil => rfl
  | cons c cs ih =>
    unfold updNamed
    by_cases hc : c.name = nm
    · rw [if_pos hc]
      simp only [List.map_cons, (hf c).1, (hf c).2]
    · rw [if_neg hc]
      simp only [List.map_cons, ih]

theorem names_of_NT (st1 st2 : List Constraint)
    (h : st1.map (fun c => (c.name, c.tag)) = st2.map (fun c => (c.name, c.tag))) :
    st1.map (fun c => c.name) = st2.map (fun c => c.name) := by
  have h2 := congrArg (List.map Prod.fst) h
  simpa [List.map_map, Function.comp] using h2

theorem FS_of_NT (st1 st2 : List Constraint)
    (h : st1.map (fun c => (c.name, c.tag)) = st2.map (fun c => (c.name, c.tag))) :
    (st1.filter (fun c => !c.tag)).map (fun c => c.name)
      = (st2.filter (fun c => !c.tag)).map (fun c => c.name) := by
  induction st1 generalizing st2 with
  | nil =>
    have : st2.map (fun c => (c.name, c.tag)) = [] := h.symm
    have h2 : st2 = [] := by
      cases st2 with
      | nil => rfl
      | cons x xs => simp at this
    rw [h2]
  | cons c cs ih =>
    cases st2 with
    | nil => simp at h
    | cons d ds =>
      simp only [List.map_cons, List.cons.injEq] at h
      have hname : c.name = d.name := congrArg Prod.fst h.1
      have htag : c.tag = d.tag := congrArg Prod.snd h.1
      by_cases ht : c.tag
      · rw [List.filter_cons_of_neg (by simp [ht]),
          List.filter_cons_of_neg (by simp [htag ▸ ht])]
        exact ih ds h.2
      · rw [List.filter_cons_of_pos (by simp [ht]),
          List.filter_cons_of_pos (by simp [htag ▸ ht])]
        simp only [List.map_cons, hname]
        rw [ih ds h.2]

theorem findNamed_none_not_mem (st : List Constraint) (nm : String)
    (h : findNamed st nm = none) : nm ∉ st.map (fun c => c.name) := by
  intro hmem
  obtain ⟨c, hc, he⟩ := List.mem_map.mp hmem
  unfold findNamed at h
  rw [List.find?_eq_none] at h
  have h2 := h c hc
  simp [he] at h2

theorem nodup_newCon (st : List Constraint) (ctype nm : String)
    (h : (st.map (fun c => c.name)).Nodup) :
    ((newCon st ctype nm).map (fun c => c.name)).Nodup := by
  unfold newCon
  split
  · exact h
  next hf =>
    rw [List.map_append]
    apply List.Nodup.append h (by simp)
    intro a ha hb
    simp only [List.map_cons, List.map_nil, List.mem_singleton] at hb
    subst hb
    exact findNamed_none_not_mem st a (by
      cases hfind : findNamed st a with
      | none => rfl
      | some c => rw [hfind] at hf; simp at hf) ha

theorem rmNamedTagged_sublist (st : List Constraint) (nm : String) :
    (rmNamedTagged st nm).Sublist st := by
  induction st with
  | nil => exact List.Sublist.refl []
  | cons c cs ih =>
    unfold rmNamedTagged
    by_cases hc : c.name = nm
    · rw [if_pos hc]
      by_cases ht : c.tag
      · rw [if_pos ht]
        exact List.sublist_cons_self c cs
      · rw [if_neg ht]
    · rw [if_neg hc]
      exact ih.cons₂ c

theorem nodup_rmNamedTagged (st : List Constraint) (nm : String)
    (h : (st.map (fun c => c.name)).Nodup) :
    ((rmNamedTagged st nm).map (fun c => c.name)).Nodup :=
  ((rmNamedTagged_sublist st nm).map (fun c => c.name)).nodup h

theorem nodup_updNamed (st : List Constraint) (nm : String) (f : Constraint → Constraint)
    (hf : ∀ c, (f c).name = c.name ∧ (f c).tag = c.tag)
    (h : (st.map (fun c => c.name)).Nodup) :
    ((updNamed st nm f).map (fun c => c.name)).Nodup := by
  rw [names_of_NT _ _ (NT_updNamed st nm f hf)]
  exact h
theorem NT_upd_roll_cfg (st : List Constraint) :
    (updNamed st "BAC_ROT_ROLL" (fun c => { c with map_to := "ROTATION", owner_space := "CUSTOM" })).map (fun c => (c.name, c.tag))
      = st.map (fun c => (c.name, c.tag)) :=
  NT_updNamed st _ _ (fun _ => ⟨rfl, rfl⟩)

theorem FS_upd_roll_cfg (st : List Constraint) :
    ((updNamed st "BAC_ROT_ROLL" (fun c => { c with map_to := "ROTATION", owner_space := "CUSTOM" })).filter (fun c => !c.tag)).map (fun c => c.name)
      = (st.filter (fun c => !c.tag)).map (fun c => c.name) :=
  FS_of_NT _ _ (NT_upd_roll_cfg st)

theorem names_upd_roll_cfg (st : List Constraint) :
    (updNamed st "BAC_ROT_ROLL" (fun c => { c with map_to := "ROTATION", owner_space := "CUSTOM" })).map (fun c => c.name) = st.map (fun c => c.name) :=
  names_of_NT _ _ (NT_upd_roll_cfg st)

theorem NT_upd_ik_cfg (st : List Constraint) :
    (updNamed st "BAC_IK" (fun c => { c with chain_count := 2, use_tail := false })).map (fun c => (c.name, c.tag))
      = st.map (fun c => (c.name, c.tag)) :=
  NT_updNamed st _ _ (fun _ => ⟨rfl, rfl⟩)

theorem FS_upd_ik_cfg (st : List Constraint) :
    ((updNamed st "BAC_IK" (fun c => { c with chain_count := 2, use_tail := false })).filter (fun c => !c.tag)).map (fun c => c.name)
      = (st.filter (fun c => !c.tag)).map (fun c => c.name) :=
  FS_of_NT _ _ (NT_upd_ik_cfg st)

theorem names_upd_ik_cfg (st : List Constraint) :
    (updNamed st "BAC_IK" (fun c => { c with chain_count := 2, use_tail := false })).map (fun c => c.name) = st.map (fun c => c.name) :=
  names_of_NT _ _ (NT_upd_ik_cfg st)

theorem NT_upd_rot_set (st : List Constraint) (tgt : Option String) (sub : String) (en : Bool) :
    (updNamed st "BAC_ROT_COPY" (fun c => { c with targetObj := tgt, subtarget := sub, enabled := en })).map (fun c => (c.name, c.tag))
      = st.map (fun c => (c.name, c.tag)) :=
  NT_updNamed st _ _ (fun _ => ⟨rfl, rfl⟩)

theorem FS_upd_rot_set (st : List Constraint) (tgt : Option String) (sub : String) (en : Bool) :
    ((updNamed st "BAC_ROT_COPY" (fun c => { c with targetObj := tgt, subtarget := sub, enabled := en })).filter (fun c => !c.tag)).map (fun c => c.name)
      = (st.filter (fun c => !c.tag)).map (fun c => c.name) :=
  FS_of_NT _ _ (NT_upd_rot_set st tgt sub en)

theorem names_upd_rot_set (st : List Constraint) (tgt : Option String) (sub : String) (en : Bool) :
    (updNamed st "BAC_ROT_COPY" (fun c => { c with targetObj := tgt, subtarget := sub, enabled := en })).map (fun c => c.name) = st.map (fun c => c.name) :=
  names_of_NT _ _ (NT_upd_rot_set st tgt sub en)

theorem NT_upd_roll_set (st : List Constraint) (off : ℚ × ℚ × ℚ) (tgt : Option String) (sub : String) (en : Bool) :
    (updNamed st "BAC_ROT_ROLL" (fun c => { c with to_min_rot := off, targetObj := tgt, space_object := tgt, subtarget := sub, space_subtarget := sub, enabled := en })).map (fun c => (c.name, c.tag))
      = st.map (fun c => (c.name, c.tag)) :=
  NT_updNamed st _ _ (fun _ => ⟨rfl, rfl⟩)

theorem FS_upd_roll_set (st : List Constraint) (off : ℚ × ℚ × ℚ) (tgt : Option String) (sub : String) (en : Bool) :
    ((updNamed st "BAC_ROT_ROLL" (fun c => { c with to_min_rot := off, targetObj := tgt, space_object := tgt, subtarget := sub, space_subtarget := sub, enabled := en })).filter (fun c => !c.tag)).map (fun c => c.name)
      = (st.filter (fun c => !c.tag)).map (fun c => c.name) :=
  FS_of_NT _ _ (NT_upd_roll_set st off tgt sub en)

theorem names_upd_roll_set (st : List Constraint) (off : ℚ × ℚ × ℚ) (tgt : Option String) (sub : String) (en : Bool) :
    (updNamed st "BAC_ROT_ROLL" (fun c => { c with to_min_rot := off, targetObj := tgt, space_object := tgt, subtarget := sub, space_subtarget := sub, enabled := en })).map (fun c => c.name) = st.map (fun c => c.name) :=
  names_of_NT _ _ (NT_upd_roll_set st off tgt sub en)

theorem NT_upd_loc_set (st : List Constraint) (ax : Bool × Bool × Bool) (tgt : Option String) (sub : String) (en : Bool) :
    (updNamed st "BAC_LOC_COPY" (fun c => { c with use_axis := ax, targetObj := tgt, subtarget := sub, enabled := en })).map (fun c => (c.name, c.tag))
      = st.map (fun c => (c.name, c.tag)) :=
  NT_updNamed st _ _ (fun _ => ⟨rfl, rfl⟩)

theorem FS_upd_loc_set (st : List Constraint) (ax : Bool × Bool × Bool) (tgt : Option String) (sub : String) (en : Bool) :
    ((updNamed st "BAC_LOC_COPY" (fun c => { c with use_axis := ax, targetObj := tgt, subtarget := sub, enabled := en })).filter (fun c => !c.tag)).map (fun c => c.name)
      = (st.filter (fun c => !c.tag)).map (fun c => c.name) :=
  FS_of_NT _ _ (NT_upd_loc_set st ax tgt sub en)

theorem names_upd_loc_set (st : List Constraint) (ax : Bool × Bool × Bool) (tgt : Option String) (sub : String) (en : Bool) :
    (updNamed st "BAC_LOC_COPY" (fun c => { c with use_axis := ax, targetObj := tgt, subtarget := sub, enabled := en })).map (fun c => c.name) = st.map (fun c => c.name) :=
  names_of_NT _ _ (NT_upd_loc_set st ax tgt sub en)

theorem NT_upd_ik_set (st : List Constraint) (inf : ℚ) (tgt : Option String) (sub : String) (en : Bool) :
    (updNamed st "BAC_IK" (fun c => { c with influence := inf, targetObj := tgt, subtarget := sub, enabled := en })).map (fun c => (c.name, c.tag))
      = st.map (fun c => (c.name, c.tag)) :=
  NT_updNamed st _ _ (fun _ => ⟨rfl, rfl⟩)

theorem FS_upd_ik_set (st : List Constraint) (inf : ℚ) (tgt : Option String) (sub : String) (en : Bool) :
    ((updNamed st "BAC_IK" (fun c => { c with influence := inf, targetObj := tgt, subtarget := sub, enabled := en })).filter (fun c => !c.tag)).map (fun c => c.name)
      = (st.filter (fun c => !c.tag)).map (fun c => c.name) :=
  FS_of_NT _ _ (NT_upd_ik_set st inf tgt sub en)

theorem names_upd_ik_set (st : List Constraint) (inf : ℚ) (tgt : Option String) (sub : String) (en : Bool) :
    (updNamed st "BAC_IK" (fun c => { c with influence := inf, targetObj := tgt, subtarget := sub, enabled := en })).map (fun c => c.name) = st.map (fun c => c.name) :=
  names_of_NT _ _ (NT_upd_ik_set st inf tgt sub en)

theorem NT_upd_enabled (st : List Constraint) (nm : String) (en : Bool) :
    (updNamed st nm (fun c => { c with enabled := en })).map (fun c => (c.name, c.tag))
      = st.map (fun c => (c.name, c.tag)) :=
  NT_updNamed st _ _ (fun _ => ⟨rfl, rfl⟩)

theorem FS_upd_enabled (st : List Constraint) (nm : String) (en : Bool) :
    ((updNamed st nm (fun c => { c with enabled := en })).filter (fun c => !c.tag)).map (fun c => c.name)
      = (st.filter (fun c => !c.tag)).map (fun c => c.name) :=
  FS_of_NT _ _ (NT_upd_enabled st nm en)

theorem names_upd_enabled (st : List Constraint) (nm : String) (en : Bool) :
    (updNamed st nm (fun c => { c with enabled := en })).map (fun c => c.name) = st.map (fun c => c.name) :=
  names_of_NT _ _ (NT_upd_enabled st nm en)


theorem applyMapping_FS (env : Env) (t : BState) (i : ℕ) (b : String) :
    ((stackOf (applyMapping env t i) b).filter (fun c => !c.tag)).map (fun c => c.name)
      = ((stackOf t b).filter (fun c => !c.tag)).map (fun c => c.name) := by
  have hPmk : ∀ ctype nm, (fun c : Constraint => !c.tag) (mkCon ctype nm) = false :=
    fun _ _ => rfl
  have hPtag : ∀ c : Constraint, c.tag = true → (fun c : Constraint => !c.tag) c = false := by
    intro c ht
    simp [ht]
  unfold applyMapping
  split
  · rfl
  · split
    · rw [stackOf_setStack]
      split
      · next hb =>
        subst hb
        simp only [apply_ite (fun st : List Constraint =>
            (st.filter (fun c => !c.tag)).map (fun c => c.name)),
          filter_newCon (fun c : Constraint => !c.tag) hPmk,
          filter_rmNamedTagged (fun c : Constraint => !c.tag) hPtag,
          FS_upd_roll_cfg, FS_upd_ik_cfg, FS_upd_rot_set, FS_upd_roll_set, FS_upd_loc_set,
          FS_upd_ik_set, ite_self]
      · rfl
    · rfl

theorem applyMapping_nodup (env : Env) (t : BState) (i : ℕ) (b : String)
    (h : ((stackOf t b).map (fun c => c.name)).Nodup) :
    ((stackOf (applyMapping env t i) b).map (fun c => c.name)).Nodup := by
  unfold applyMapping
  split
  · exact h
  · split
    · rw [stackOf_setStack]
      split
      · next hb =>
        subst hb
        repeat' split
        all_goals repeat
          first
          | rw [names_upd_roll_cfg]
          | rw [names_upd_ik_cfg]
          | rw [names_upd_rot_set]
          | rw [names_upd_roll_set]
          | rw [names_upd_loc_set]
          | rw [names_upd_ik_set]
          | apply nodup_rmNamedTagged
          | apply nodup_newCon
        all_goals exact h
      · exact h
    · exact h

theorem foldl_applyMapping_nodup (env : Env) (l : List ℕ) (s : BState) (b : String)
    (h : ((stackOf s b).map (fun c => c.name)).Nodup) :
    ((stackOf (l.foldl (fun t i => applyMapping env t i) s) b).map (fun c => c.name)).Nodup := by
  induction l generalizing s with
  | nil => exact h
  | cons i is ih =>
    rw [List.foldl_cons]
    exact ih _ (applyMapping_nodup env s i b h)

theorem update_preview_FS (env : Env) (s : BState) (b : String) :
    ((stackOf (update_preview env s) b).filter (fun c => !c.tag)).map (fun c => c.name)
      = ((stackOf s b).filter (fun c => !c.tag)).map (fun c => c.name) := by
  unfold update_preview
  exact foldl_preserves _
    (fun t => ((stackOf t b).filter (fun c => !c.tag)).map (fun c => c.name))
    (fun t i => applyMapping_FS env t i b) _ s

theorem update_preview_nodup (env : Env) (s : BState) (b : String)
    (h : ((stackOf s b).map (fun c => c.name)).Nodup) :
    ((stackOf (update_preview env s) b).map (fun c => c.name)).Nodup :=
  foldl_applyMapping_nodup env _ s b h

theorem update_preview_ownerObj (env : Env) (s : BState) :
    (update_preview env s).ownerObj = s.ownerObj := by
  unfold update_preview
  exact foldl_preserves _ (fun t => t.ownerObj)
    (fun t i => applyMapping_ownerObj env t i) _ s

theorem stackOf_withPreview (s : BState) (v : Bool) (b : String) :
    stackOf { s with preview := v } b = stackOf s b := stackOf_congr _ _ b rfl

theorem setPreview_FS (env : Env) (s : BState) (v : Bool) (b : String) :
    ((stackOf (setPreview env s v) b).filter (fun c => !c.tag)).map (fun c => c.name)
      = ((stackOf s b).filter (fun c => !c.tag)).map (fun c => c.name) := by
  unfold setPreview
  rw [update_preview_FS, stackOf_withPreview]

theorem setPreview_nodup (env : Env) (s : BState) (v : Bool) (b : String)
    (h : ((stackOf s b).map (fun c => c.name)).Nodup) :
    ((stackOf (setPreview env s v) b).map (fun c => c.name)).Nodup := by
  unfold setPreview
  apply update_preview_nodup
  rw [stackOf_withPreview]
  exact h

theorem setPreview_ownerObj (env : Env) (s : BState) (v : Bool) :
    (setPreview env s v).ownerObj = s.ownerObj := by
  unfold setPreview
  rw [update_preview_ownerObj]

theorem getOwnerPB_some_mem (env : Env) (t : BState) (m : Mapping) (ob o : String)
    (ho : t.ownerObj = some o) (h : getOwnerPB env t m = some ob) : ob ∈ env.bones o := by
  unfold getOwnerPB at h
  rw [ho] at h
  dsimp only at h
  split at h
  · next hmem =>
    cases h
    exact hmem
  · exact absurd h (by simp)

theorem applyMapping_stack_of_other (env : Env) (t : BState) (i : ℕ) (b o : String)
    (ho : t.ownerObj = some o) (hb : b ∉ env.bones o) :
    stackOf (applyMapping env t i) b = stackOf t b := by
  unfold applyMapping
  split
  · rfl
  · split
    · next ob pb hob htb =>
      rw [stackOf_setStack]
      rw [if_neg]
      intro he
      subst he
      exact hb (getOwnerPB_some_mem env t _ b o ho hob)
    · rfl

theorem update_preview_stack_of_other (env : Env) (s : BState) (b o : String)
    (ho : s.ownerObj = some o) (hb : b ∉ env.bones o) :
    stackOf (update_preview env s) b = stackOf s b := by
  unfold update_preview
  generalize (List.range s.mappings.length) = l
  induction l generalizing s with
  | nil => rfl
  | cons i is ih =>
    rw [List.foldl_cons, ih (applyMapping env s i)
      (by rw [applyMapping_ownerObj]; exact ho)]
    exact applyMapping_stack_of_other env s i b o ho hb

theorem setPreview_stack_of_other (env : Env) (s : BState) (v : Bool) (b o : String)
    (ho : s.ownerObj = some o) (hb : b ∉ env.bones o) :
    stackOf (setPreview env s v) b = stackOf s b := by
  unfold setPreview
  rw [update_preview_stack_of_other env { s with preview := v } b o ho hb, stackOf_withPreview]

theorem bakeDisable_ownerObj (env : Env) (s : BState) (o : String) :
    (bakeDisable env s o).ownerObj = s.ownerObj := by
  unfold bakeDisable
  apply foldl_preserves
  intro t b
  rfl

theorem bakeDisable_preview (env : Env) (s : BState) (o : String) :
    (bakeDisable env s o).preview = s.preview := by
  unfold bakeDisable
  apply foldl_preserves
  intro t b
  rfl

theorem bakeRestore_preview (s : BState) (snap : List (String × String × Bool)) :
    (bakeRestore s snap).preview = s.preview := by
  unfold bakeRestore
  apply foldl_preserves
  intro t e
  rfl

theorem stackOf_disable_step (t : BState) (bk b : String) :
    stackOf (setStack t bk
        ((stackOf t bk).map (fun c => if c.tag then c else { c with enabled := false }))) b
      = if b = bk
        then (stackOf t b).map (fun c => if c.tag then c else { c with enabled := false })
        else stackOf t b := by
  rw [stackOf_setStack]
  by_cases h : b = bk
  · subst h
    simp
  · simp [h]

theorem NT_disable (st : List Constraint) :
    (st.map (fun c => if c.tag then c else { c with enabled := false })).map
        (fun c => (c.name, c.tag))
      = st.map (fun c => (c.name, c.tag)) := by
  rw [List.map_map]
  apply List.map_congr_left
  intro c _
  by_cases h : c.tag <;> simp [Function.comp, h]

theorem bakeDisable_NT (env : Env) (s : BState) (o b : String) :
    (stackOf (bakeDisable env s o) b).map (fun c => (c.name, c.tag))
      = (stackOf s b).map (fun c => (c.name, c.tag)) := by
  unfold bakeDisable
  generalize env.bones o = l
  induction l generalizing s with
  | nil => rfl
  | cons bk bs ih =>
    rw [List.foldl_cons]
    rw [ih]
    rw [stackOf_disable_step]
    by_cases h : b = bk
    · rw [if_pos h, NT_disable]
    · rw [if_neg h]

theorem bakeDisable_FS (env : Env) (s : BState) (o b : String) :
    ((stackOf (bakeDisable env s o) b).filter (fun c => !c.tag)).map (fun c => c.name)
      = ((stackOf s b).filter (fun c => !c.tag)).map (fun c => c.name) :=
  FS_of_NT _ _ (bakeDisable_NT env s o b)

theorem bakeDisable_nodup (env : Env) (s : BState) (o b : String)
    (h : ((stackOf s b).map (fun c => c.name)).Nodup) :
    ((stackOf (bakeDisable env s o) b).map (fun c => c.name)).Nodup := by
  rw [names_of_NT _ _ (bakeDisable_NT env s o b)]
  exact h

theorem bakeDisable_stack_of_other (env : Env) (s : BState) (o b : String)
    (hb : b ∉ env.bones o) :
    stackOf (bakeDisable env s o) b = stackOf s b := by
  unfold bakeDisable
  revert hb
  generalize env.bones o = l
  induction l generalizing s with
  | nil => intro _; rfl
  | cons bk bs ih =>
    intro hb
    rw [List.foldl_cons]
    rw [ih _ (fun h => hb (List.mem_cons_of_mem _ h)), stackOf_disable_step, if_neg]
    intro he
    subst he
    exact hb (List.mem_cons_self _ _)

theorem bakeRestore_stack (s : BState) (snap : List (String × String × Bool)) (b : String) :
    stackOf (bakeRestore s snap) b
      = (snap.filter (fun e => e.1 = b)).foldl
          (fun st e => updNamed st e.2.1 (fun c => { c with enabled := e.2.2 }))
          (stackOf s b) := by
  unfold bakeRestore
  induction snap generalizing s with
  | nil => rfl
  | cons e es ih =>
    rw [List.foldl_cons, ih, stackOf_setStack]
    by_cases h : e.1 = b
    · rw [List.filter_cons_of_pos (by simp [h]), List.foldl_cons, if_pos h.symm, h]
    · rw [List.filter_cons_of_neg (by simp [h]), if_neg (fun hb => h hb.symm)]

theorem lookup_none_of_not_mem (a : String) (es : List (String × Bool))
    (h : a ∉ es.map (fun p => p.1)) : List.lookup a es = none := by
  induction es with
  | nil => rfl
  | cons p es ih =>
    obtain ⟨k, v⟩ := p
    simp only [List.map_cons, List.mem_cons] at h
    push_neg at h
    obtain ⟨h1, h2⟩ := h
    have hk : (a == k) = false := beq_eq_false_iff_ne.mpr h1
    simp [List.lookup, hk, ih h2]

theorem enabFun_name (entries : List (String × Bool)) (c : Constraint) :
    (enabFun entries c).name = c.name := by
  unfold enabFun
  split <;> rfl

theorem enabFun_tag (entries : List (String × Bool)) (c : Constraint) :
    (enabFun entries c).tag = c.tag := by
  unfold enabFun
  split <;> rfl

theorem updNamed_eq_map (st : List Constraint) (nm : String) (f : Constraint → Constraint)
    (h : (st.map (fun c => c.name)).Nodup) :
    updNamed st nm f = st.map (fun c => if c.name = nm then f c else c) := by
  induction st with
  | nil => rfl
  | cons c cs ih =>
    simp only [List.map_cons, List.nodup_cons] at h
    obtain ⟨hc, hcs⟩ := h
    simp only [updNamed, List.map_cons]
    by_cases hn : c.name = nm
    · rw [if_pos hn, if_pos hn]
      congr 1
      have : ∀ c' ∈ cs, (if c'.name = nm then f c' else c') = c' := by
        intro c' hc'
        rw [if_neg]
        intro he
        apply hc
        rw [hn, ← he]
        exact List.mem_map_of_mem _ hc'
      rw [List.map_congr_left this, List.map_id']
    · rw [if_neg hn, if_neg hn, ih hcs]

theorem names_map_pres (st : List Constraint) (g : Constraint → Constraint)
    (hg : ∀ c, (g c).name = c.name) :
    (st.map g).map (fun c => c.name) = st.map (fun c => c.name) := by
  rw [List.map_map]
  exact List.map_congr_left (fun c _ => hg c)

theorem enabFun_of_lookup_none (entries : List (String × Bool)) (c : Constraint)
    (h : List.lookup c.name entries = none) : enabFun entries c = c := by
  unfold enabFun
  rw [h]

theorem enabFun_of_lookup_some (entries : List (String × Bool)) (c : Constraint) (v : Bool)
    (h : List.lookup c.name entries = some v) : enabFun entries c = { c with enabled := v } := by
  unfold enabFun
  rw [h]

theorem foldl_restore_eq_map (entries : List (String × Bool)) (st : List Constraint)
    (hst : (st.map (fun c => c.name)).Nodup)
    (hk : (entries.map (fun p => p.1)).Nodup) :
    entries.foldl (fun acc p => updNamed acc p.1 (fun c => { c with enabled := p.2 })) st
      = st.map (enabFun entries) := by
  induction entries generalizing st with
  | nil =>
    rw [List.foldl_nil]
    have he : ∀ c ∈ st, enabFun [] c = c := fun c _ => rfl
    rw [List.map_congr_left he, List.map_id']
  | cons p es ih =>
    obtain ⟨n, v⟩ := p
    simp only [List.map_cons, List.nodup_cons] at hk
    obtain ⟨hp, hk'⟩ := hk
    rw [List.foldl_cons]
    rw [updNamed_eq_map st n _ hst]
    rw [ih (st.map fun c => if c.name = n then { c with enabled := v } else c)
        (by
          rw [names_map_pres]
          · exact hst
          · intro c
            by_cases hn : c.name = n <;> simp [hn])
        hk']
    rw [List.map_map]
    apply List.map_congr_left
    intro c _
    by_cases hn : c.name = n
    · simp only [Function.comp_apply]
      rw [if_pos hn]
      rw [enabFun_of_lookup_none es { c with enabled := v } (by
            show List.lookup c.name es = none
            exact lookup_none_of_not_mem _ _ (by rw [hn]; exact hp)),
          enabFun_of_lookup_some ((n, v) :: es) c v (by simp [List.lookup, hn])]
    · simp only [Function.comp_apply]
      rw [if_neg hn]
      have hsk : List.lookup c.name ((n, v) :: es) = List.lookup c.name es := by
        simp [List.lookup, beq_eq_false_iff_ne.mpr hn]
      unfold enabFun
      rw [hsk]

theorem filterMap_snap_self (st : List Constraint) (b : String) :
    st.filterMap (fun c => if c.tag then none else some (b, c.name, c.enabled))
      = ((st.filter (fun c => !c.tag)).map (fun c => (c.name, c.enabled))).map
          (fun p => (b, p.1, p.2)) := by
  induction st with
  | nil => rfl
  | cons c cs ih =>
    cases hc : c.tag <;> simp [List.filterMap_cons, List.filter_cons, hc, ih]

theorem filter_filterMap_snap (st : List Constraint) (b' b : String) :
    (st.filterMap (fun c => if c.tag then none else some (b', c.name, c.enabled))).filter
        (fun e => e.1 = b)
      = if b' = b
        then st.filterMap (fun c => if c.tag then none else some (b', c.name, c.enabled))
        else [] := by
  by_cases hb : b' = b
  · subst hb
    rw [if_pos rfl]
    induction st with
    | nil => rfl
    | cons c cs ih =>
      cases hc : c.tag
      · simp [List.filterMap_cons, hc, List.filter_cons, ih]
      · simp [List.filterMap_cons, hc, ih]
  · rw [if_neg hb]
    induction st with
    | nil => rfl
    | cons c cs ih =>
      cases hc : c.tag
      · simp [List.filterMap_cons, hc, List.filter_cons, hb, ih]
      · simp [List.filterMap_cons, hc, ih]

theorem bakeSnapshot_filter (env : Env) (s : BState) (o b : String)
    (hnd : (env.bones o).Nodup) :
    (bakeSnapshot env s o).filter (fun e => e.1 = b)
      = if b ∈ env.bones o
        then ((stackOf s b).filter (fun c => !c.tag)).map (fun c => (c.name, c.enabled))
              |>.map (fun p => (b, p.1, p.2))
        else [] := by
  unfold bakeSnapshot
  revert hnd
  generalize env.bones o = l
  intro hnd
  induction l with
  | nil => simp
  | cons b' bs ih =>
    simp only [List.nodup_cons] at hnd
    obtain ⟨hb', hnd'⟩ := hnd
    rw [List.flatMap_cons, List.filter_append, filter_filterMap_snap, ih hnd']
    by_cases hb : b' = b
    · subst hb
      rw [if_pos rfl, if_neg hb', if_pos (List.mem_cons_self _ _), List.append_nil,
          filterMap_snap_self]
    · rw [if_neg hb, List.nil_append]
      by_cases hmem : b ∈ bs
      · rw [if_pos hmem, if_pos (List.mem_cons_of_mem _ hmem)]
      · rw [if_neg hmem, if_neg (by
          intro hm
          rcases List.mem_cons.mp hm with h | h
          · exact hb h.symm
          · exact hmem h)]

theorem filter_map_tag_pres (st : List Constraint) (g : Constraint → Constraint)
    (hg : ∀ c, (g c).tag = c.tag) :
    (st.map g).filter (fun c => !c.tag) = (st.filter (fun c => !c.tag)).map g := by
  induction st with
  | nil => rfl
  | cons c cs ih =>
    rw [List.map_cons, List.filter_cons, List.filter_cons, hg]
    cases hc : c.tag <;> simp [ih]

theorem FS_nodup (st : List Constraint) (h : (st.map (fun c => c.name)).Nodup) :
    ((st.filter (fun c => !c.tag)).map (fun c => c.name)).Nodup :=
  List.Nodup.sublist (List.Sublist.map _ (List.filter_sublist st)) h

theorem FNE_fst (st : List Constraint) :
    (((st.filter (fun c => !c.tag)).map (fun c => (c.name, c.enabled))).map (fun p => p.1))
      = (st.filter (fun c => !c.tag)).map (fun c => c.name) := by
  rw [List.map_map]
  rfl

theorem stackOf_names_nodup_of_mem (s : BState)
    (h : ∀ p ∈ s.conStacks, (p.2.map (fun c => c.name)).Nodup) (b : String) :
    ((stackOf s b).map (fun c => c.name)).Nodup := by
  unfold stackOf
  cases hf : s.conStacks.find? (fun p => p.1 = b) with
  | none => simp
  | some p => exact h p (List.mem_of_find?_eq_some hf)

theorem map_enab_eq_entries (entries : List (String × Bool)) (l : List Constraint)
    (hn : l.map (fun c => c.name) = entries.map (fun p => p.1))
    (hk : (entries.map (fun p => p.1)).Nodup) :
    l.map (fun c => ((enabFun entries c).name, (enabFun entries c).enabled)) = entries := by
  induction entries generalizing l with
  | nil =>
    cases l with
    | nil => rfl
    | cons c l' => simp at hn
  | cons p es ih =>
    obtain ⟨n, v⟩ := p
    cases l with
    | nil => simp at hn
    | cons c l' =>
      simp only [List.map_cons, List.cons.injEq] at hn
      obtain ⟨hcn, htl⟩ := hn
      simp only [List.map_cons, List.nodup_cons] at hk
      obtain ⟨hp, hk'⟩ := hk
      rw [List.map_cons]
      congr 1
      · rw [enabFun_of_lookup_some ((n, v) :: es) c v (by simp [List.lookup, hcn])]
        simp [hcn]
      · have he : ∀ c' ∈ l',
            ((enabFun ((n, v) :: es) c').name, (enabFun ((n, v) :: es) c').enabled)
              = ((enabFun es c').name, (enabFun es c').enabled) := by
          intro c' hc'
          have hm : c'.name ∈ es.map (fun p => p.1) := by
            rw [← htl]
            exact List.mem_map_of_mem _ hc'
          have hne : c'.name ≠ n := fun h => hp (h ▸ hm)
          have hsk : List.lookup c'.name ((n, v) :: es) = List.lookup c'.name es := by
            simp [List.lookup, beq_eq_false_iff_ne.mpr hne]
          unfold enabFun
          rw [hsk]
        rw [List.map_congr_left he]
        exact ih l' htl hk'

/-- C2 (amended): a bake-operator run that passes its preconditions — on the
success path as well as on the path where the host bake raised an error —
restores the enabled flag of every foreign (non-tagged) constraint on every
pose bone to its pre-bake value, but it does not restore the preview flag:
the `finally`-equivalent step leaves it `false` unconditionally.  The
hypotheses state that constraint names are unique within each stored stack
and that the owner armature's bone list has no duplicates, both of which
the host enforces. -/
theorem C2_bake_restores_foreign_enabled (env : Env) (s s' : BState) (r : Bool)
    (huniq : ∀ p ∈ s.conStacks, (p.2.map (fun c => c.name)).Nodup)
    (hbones : ∀ o, s.ownerObj = some o → (env.bones o).Nodup)
    (h : bakeExec env s r = some s') :
    s'.preview = false ∧
      ∀ b, ((stackOf s' b).filter (fun c => !c.tag)).map (fun c => (c.name, c.enabled))
        = ((stackOf s b).filter (fun c => !c.tag)).map (fun c => (c.name, c.enabled)) := by
  unfold bakeExec at h
  split at h
  · next o tg ho htg =>
    split at h
    · next hact =>
      simp only [Option.some.injEq] at h
      subst h
      constructor
      · rw [bakeRestore_preview, setPreview_preview]
      · intro b
        have hndb : ((stackOf s b).map (fun c => c.name)).Nodup :=
          stackOf_names_nodup_of_mem s huniq b
        have hnd1 : ((stackOf (bakeDisable env s o) b).map (fun c => c.name)).Nodup :=
          bakeDisable_nodup env s o b hndb
        have hnd2 : ((stackOf (setPreview env (bakeDisable env s o) true) b).map
            (fun c => c.name)).Nodup :=
          setPreview_nodup env _ true b hnd1
        have hnd3 : ((stackOf (setPreview env (setPreview env (bakeDisable env s o) true)
            false) b).map (fun c => c.name)).Nodup :=
          setPreview_nodup env _ false b hnd2
        have hFS3 : ((stackOf (setPreview env (setPreview env (bakeDisable env s o) true)
              false) b).filter (fun c => !c.tag)).map (fun c => c.name)
            = ((stackOf s b).filter (fun c => !c.tag)).map (fun c => c.name) := by
          rw [setPreview_FS, setPreview_FS, bakeDisable_FS]
        have hkeys : ((((stackOf s b).filter (fun c => !c.tag)).map
            (fun c => (c.name, c.enabled))).map (fun p => p.1)).Nodup := by
          rw [FNE_fst]
          exact FS_nodup _ hndb
        rw [bakeRestore_stack, bakeSnapshot_filter env s o b (hbones o ho)]
        by_cases hb : b ∈ env.bones o
        · rw [if_pos hb]
          have hfold : ((((stackOf s b).filter (fun c => !c.tag)).map
                (fun c => (c.name, c.enabled))).map (fun p => (b, p.1, p.2))).foldl
                (fun st e => updNamed st e.2.1 (fun c => { c with enabled := e.2.2 }))
                (stackOf (setPreview env (setPreview env (bakeDisable env s o) true)
                  false) b)
              = (stackOf (setPreview env (setPreview env (bakeDisable env s o) true)
                  false) b).map
                  (enabFun (((stackOf s b).filter (fun c => !c.tag)).map
                    (fun c => (c.name, c.enabled)))) := by
            rw [List.foldl_map]
            exact foldl_restore_eq_map _ _ hnd3 hkeys
          rw [hfold]
          rw [filter_map_tag_pres _ _ (enabFun_tag _), List.map_map]
          exact map_enab_eq_entries _ _ (by rw [hFS3, FNE_fst]) hkeys
        · rw [if_neg hb, List.foldl_nil]
          have ho1 : (bakeDisable env s o).ownerObj = some o := by
            rw [bakeDisable_ownerObj]
            exact ho
          have ho2 : (setPreview env (bakeDisable env s o) true).ownerObj = some o := by
            rw [setPreview_ownerObj]
            exact ho1
          rw [setPreview_stack_of_other env _ false b o ho2 hb,
              setPreview_stack_of_other env _ true b o ho1 hb,
              bakeDisable_stack_of_other env s o b hb]
    · exact absurd h (by simp)
  · exact absurd h (by simp)

/-- C2 witness: on the concrete state `sC2` (preview on, one enabled
user-authored constraint "usercon" on owner pose bone "A") the bake run
terminates with the preview flag `false` while every foreign constraint —
on every bone — has its pre-bake enabled flag back. -/
theorem C2_bake_restores_foreign_enabled_witness :
    (∀ p ∈ sC2.conStacks, (p.2.map (fun c => c.name)).Nodup) ∧
    (∀ o, sC2.ownerObj = some o → (env0.bones o).Nodup) ∧
    ∃ s', bakeExec env0 sC2 false = some s' ∧
      (s'.preview = false ∧
        ∀ b, ((stackOf s' b).filter (fun c => !c.tag)).map (fun c => (c.name, c.enabled))
          = ((stackOf sC2 b).filter (fun c => !c.tag)).map (fun c => (c.name, c.enabled))) := by
  have h1 : ∀ p ∈ sC2.conStacks, (p.2.map (fun c => c.name)).Nodup := by decide
  have h2 : ∀ o, sC2.ownerObj = some o → (env0.bones o).Nodup := by
    intro o ho
    have ho' : (some "O" : Option String) = some o := ho
    obtain rfl := Option.some.inj ho'
    decide
  exact ⟨h1, h2, _, rfl,
    C2_bake_restores_foreign_enabled env0 sC2 _ false h1 h2 rfl⟩
